import Mathlib

/-! # NachoBot shim (`proxy.go`): a verification development

A shallow embedding of `handleChat` and its helpers.

Modelling conventions.

* Go `string` and `[]byte` are both modelled by `String`; the conversion `string(raw)` is the
  identity.
* A Go value of type `any` that comes out of `encoding/json`, or is built by the handler, is a
  `Value`.  A number is the rational it denotes: the literal `100` (a Go `int`) and a decoded
  `float64` of the same value are the same `Value`, as they are the same JSON text.
* A Go `map[string]any` is a finite map.  It is modelled by an association list kept in ascending
  key order (the order in which `json.Marshal` writes the keys), so that equal maps are equal
  lists.  The functions below do not require the order; they preserve it (`Object.set_sorted`).
* `encoding/json`, `net/http` and the clock are outside the repository: the JSON reader and writer,
  the outcome of each `client.Do` call and the clock readings are parameters.
-/

namespace NachoBot

/-! ## Data model -/

/-- A Go `any` holding JSON data. -/
inductive Value where
  | null
  | bool (b : Bool)
  | num (q : Rat)
  | str (s : String)
  | arr (xs : List Value)
  | obj (kvs : List (String × Value))

/-- A Go `map[string]any`. -/
abbrev Object := List (String × Value)

/-- The read `v, ok := m[k]`: `none` stands for `ok = false`. A nil map reads like `[]`. -/
def Object.get : Object → String → Option Value
  | [], _ => none
  | (k', v) :: rest, k => if k' = k then some v else Object.get rest k

/-- The order of `sort.Strings` on keys, by which `json.Marshal` writes a map: lexicographic on
the characters. -/
def keyLt : List Char → List Char → Bool
  | _, [] => false
  | [], _ :: _ => true
  | a :: as, b :: bs =>
    if a.toNat < b.toNat then true
    else if b.toNat < a.toNat then false
    else keyLt as bs

/-- The assignment `m[k] = v`: replaces the entry of `k`, or adds one (at its place in key
order). -/
def Object.set : Object → String → Value → Object
  | [], k, v => [(k, v)]
  | (k', v') :: rest, k, v =>
    if k' = k then (k, v) :: rest
    else if keyLt k.data k'.data then (k, v) :: (k', v') :: rest
    else (k', v') :: Object.set rest k v

/-- The keys of `m` are in strictly ascending order. -/
def Object.Sorted (m : Object) : Prop :=
  List.Pairwise (fun a b => keyLt a.1.data b.1.data = true) m

/-- The type assertion `x.(map[string]any)` on the result of a map read. -/
def asMap : Option Value → Option Object
  | some (.obj m) => some m
  | _ => none

/-- The type assertion `x.([]any)` on the result of a map read. -/
def asSlice : Option Value → Option (List Value)
  | some (.arr xs) => some xs
  | _ => none

/-- Go `getString(m, k)`: `some s` stands for `(s, true)`, `none` for `("", false)`. -/
def getString (m : Object) (k : String) : Option String :=
  match m.get k with
  | some (.str s) => some s
  | _ => none

/-- Go `unicode.IsSpace`. -/
def isSpace (c : Char) : Bool :=
  let n := c.toNat
  (9 ≤ n && n ≤ 13) || n = 32 || n = 0x85 || n = 0xA0 || n = 0x1680 ||
  (0x2000 ≤ n && n ≤ 0x200A) || n = 0x2028 || n = 0x2029 || n = 0x202F || n = 0x205F ||
  n = 0x3000

/-- Go `strings.TrimSpace`. -/
def trimSpace (s : String) : String :=
  String.mk ((s.data.dropWhile isSpace).reverse.dropWhile isSpace).reverse

/-- The test `strings.TrimSpace(s) == ""`. -/
def isBlank (s : String) : Bool := trimSpace s == ""

/-! ## `encoding/json` -/

/-- The two `encoding/json` functions the handler calls, on JSON text.
`parse` reads one JSON text into the value `json.Unmarshal` stores in an `any` (`none`: it
returned an error), so a number is the `float64` it is decoded to, which for an integer beyond
`2^53` need not be the number written in the text; `marshal` is `json.Marshal` (`none`: it
returned an error). -/
structure Json where
  parse : String → Option Value
  marshal : Value → Option String

/-- The call `json.Unmarshal(data, &m)` for a nil `m` of type `map[string]any`.
`.error`: `err != nil` (a syntax error, or a JSON array, string, number or boolean, which cannot be
stored in a map). `.ok none`: the text is `null`, which is stored as the nil map without error.
`.ok (some m)`: the text is a JSON object. -/
def unmarshalMap (J : Json) (data : String) : Except String (Option Object) :=
  match J.parse data with
  | none => .error "invalid JSON"
  | some .null => .ok none
  | some (.obj m) => .ok (some m)
  | some _ => .error "json: cannot unmarshal into Go value of type map[string]interface"

/-! ## Request sanitizer (`handleChat`, lines 55-73) -/

/-- A run-time panic of the handler. -/
inductive Fault where
  | nilMapAssign
  | nilDeref
  deriving DecidableEq, Repr

/-- The five keys the sanitizer assigns. -/
def overrideKeys : List String :=
  ["enable_thinking", "enable_thoughts", "enable_reasoning", "response_format",
    "thinking_budget_token_limit"]

/-- The five assignments of lines 57-61, which lines 63-67 repeat on `params`. -/
def applyOverrides (m : Object) : Object :=
  ((((m.set "enable_thinking" (.bool false)).set "enable_thoughts" (.bool false)).set
    "enable_reasoning" (.bool false)).set "response_format" (.obj [("type", .str "text")])).set
    "thinking_budget_token_limit" (.num 100)

/-- The five keys hold the five fixed values in `m`. -/
def Suppressed (m : Object) : Prop :=
  m.get "enable_thinking" = some (.bool false) ∧
  m.get "enable_thoughts" = some (.bool false) ∧
  m.get "enable_reasoning" = some (.bool false) ∧
  m.get "thinking_budget_token_limit" = some (.num 100) ∧
  m.get "response_format" = some (.obj [("type", .str "text")])

/-- The assignments of lines 57-69 on a non-nil `reqPayload`. -/
def sanitizePayload (reqPayload : Object) : Object :=
  let reqPayload := reqPayload.set "enable_thinking" (.bool false)
  let reqPayload := reqPayload.set "enable_thoughts" (.bool false)
  let reqPayload := reqPayload.set "enable_reasoning" (.bool false)
  let reqPayload := reqPayload.set "response_format" (.obj [("type", .str "text")])
  let reqPayload := reqPayload.set "thinking_budget_token_limit" (.num 100)
  match asMap (reqPayload.get "extra_params") with
  | some params =>
    let params := params.set "enable_thinking" (.bool false)
    let params := params.set "enable_thoughts" (.bool false)
    let params := params.set "enable_reasoning" (.bool false)
    let params := params.set "response_format" (.obj [("type", .str "text")])
    let params := params.set "thinking_budget_token_limit" (.num 100)
    reqPayload.set "extra_params" (.obj params)
  | none => reqPayload

/-- What lines 55-73 leave behind: `reqPayload` (`none` when the body did not decode) and the
`body` that is forwarded. -/
structure Sanitized where
  payload : Option Object
  body : String

/-- Lines 55-73 of `handleChat`. Writing into the nil map that `null` decodes to panics. -/
def sanitizeRequest (J : Json) (body : String) : Except Fault Sanitized :=
  match unmarshalMap J body with
  | .error _ => .ok { payload := none, body := body }
  | .ok none => .error .nilMapAssign
  | .ok (some reqPayload) =>
    let reqPayload := sanitizePayload reqPayload
    match J.marshal (.obj reqPayload) with
    | some nb => .ok { payload := some reqPayload, body := nb }
    | none => .ok { payload := some reqPayload, body := body }

/-! ## Configuration (`envOr`, `envOrInt`) -/

/-- Go `envOr`; `getenv` is `os.Getenv`, which yields `""` for an unset variable. -/
def envOr (getenv : String → String) (k def_ : String) : String :=
  if getenv k ≠ "" then getenv k else def_

/-- Go `strconv.Atoi`: an optional sign, then one or more decimal digits, the value within the
64-bit `int` range. `none`: it returned an error. -/
def atoi (s : String) : Option Int :=
  let signed : Bool × List Char :=
    match s.data with
    | '+' :: r => (false, r)
    | '-' :: r => (true, r)
    | r => (false, r)
  if signed.2.isEmpty || !signed.2.all Char.isDigit then none
  else
    let n : Nat := signed.2.foldl (fun a c => 10 * a + (c.toNat - 48)) 0
    let v : Int := if signed.1 then -(n : Int) else (n : Int)
    if -(2 : Int) ^ 63 ≤ v ∧ v < (2 : Int) ^ 63 then some v else none

/-- Go `envOrInt`. -/
def envOrInt (getenv : String → String) (k : String) (def_ : Int) : Int :=
  if getenv k ≠ "" then
    match atoi (getenv k) with
    | some n => n
    | none => def_
  else def_

/-- The package variable `qhaiBase`. -/
def qhaiBase (getenv : String → String) : String :=
  envOr getenv "QHAI_BASE" "https://api.qhaigc.net/v1"

/-- The package variable `qhaiKey`. -/
def qhaiKey (getenv : String → String) : String :=
  envOr getenv "QHAI_KEY" ""

/-! ## Backoff and the retry loop (`handleChat`, lines 85-96) -/

/-- Two-complement wrap of an integer into the `int64` range. -/
def wrapInt64 (x : Int) : Int := (x + 2 ^ 63) % 2 ^ 64 - 2 ^ 63

/-- Go `backoff(attempt)`, in nanoseconds (`time.Duration` is an `int64` count of nanoseconds,
`time.Millisecond` is `1000000`).
`500*math.Pow(2, float64(attempt))` is `500 * 2^attempt`, exact in `float64`. Its conversion to
`int64` is that number when it is below `2^63`; otherwise Go leaves the result to the
implementation, and it is `conv attempt`. The product with `time.Millisecond` wraps. -/
def backoff (conv : Nat → Int) (attempt : Nat) : Int :=
  let f : Nat := 500 * 2 ^ attempt
  let d : Int := if f < 2 ^ 63 then (f : Int) else conv attempt
  wrapInt64 (d * 1000000)

/-- The fields of `*http.Response` the handler reads; `body` is what `io.ReadAll(resp.Body)`
returns. -/
structure Response where
  status : String
  statusCode : Int
  body : String

/-- An effect of the retry loop: the call of `client.Do(req)` made with loop counter `attempt`,
or the call `time.Sleep(d)` with `d` in nanoseconds. -/
inductive Event where
  | call (attempt : Nat)
  | sleep (d : Int)
  deriving DecidableEq, Repr

/-- The number of calls of `client.Do` in a trace. -/
def attempts (trace : List Event) : Nat :=
  (trace.filter (fun e => match e with | .call _ => true | .sleep _ => false)).length

/-- The arguments of the calls of `time.Sleep` in a trace, in call order. -/
def sleeps (trace : List Event) : List Int :=
  trace.filterMap (fun e => match e with | .call _ => none | .sleep d => some d)

/-- The variables `resp` and `err` of the retry loop, with the trace of the effects so far, in
order. `err` holds `err.Error()` of a non-nil `err`. -/
structure LoopState where
  resp : Option Response
  err : Option String
  trace : List Event

/-- The state before the loop: `var resp *http.Response; var err error`. -/
def LoopState.init : LoopState := { resp := none, err := none, trace := [] }

/-- The loop `for attempt := 0; attempt <= retry; attempt++ { ... }` from the iteration with
counter `attempt` on. `send k` is the outcome of the call of `client.Do(req)` made with counter
`k`. The first argument bounds the number of iterations; `retry + 1 - attempt` is enough
(`retryLoop_fuel`). The counter is a natural number: the `int` of the source would take `2^63`
failed calls to wrap. -/
def retryLoop (conv : Nat → Int) (send : Nat → Except String Response) (retry : Int) :
    Nat → Nat → LoopState → LoopState
  | 0, _, st => st
  | fuel + 1, attempt, st =>
    if (attempt : Int) ≤ retry then
      match send attempt with
      | .ok r => { resp := some r, err := none, trace := st.trace ++ [.call attempt] }
      | .error e =>
        retryLoop conv send retry fuel (attempt + 1)
          { resp := none, err := some e,
            trace :=
              if (attempt : Int) < retry then
                st.trace ++ [.call attempt, .sleep (backoff conv attempt)]
              else st.trace ++ [.call attempt] }
    else st

/-- The whole loop of lines 85-96, from `attempt := 0`. -/
def runLoop (conv : Nat → Int) (send : Nat → Except String Response) (retry : Int) : LoopState :=
  retryLoop conv send retry (retry + 1).toNat 0 LoopState.init

/-- The trace of a loop whose calls with counters `0 .. k-1` fail, each followed by its backoff
sleep, and whose last call has counter `k`. -/
def retryTrace (conv : Nat → Int) (k : Nat) : List Event :=
  (List.range k).flatMap (fun i => [.call i, .sleep (backoff conv i)]) ++ [.call k]

/-! ## Envelope builder (`writeJSON`, `writeChoices`) -/

/-- What is written to the `http.ResponseWriter`: the status code and the value that is
encoded. -/
structure Reply where
  code : Int
  body : Value

/-- Go `writeJSON`. -/
def writeJSON (code : Int) (v : Value) : Reply := { code := code, body := v }

/-- A reading of `time.Now()`: Unix seconds, nanoseconds within the second, and the offset of the
local zone from UTC in seconds. -/
structure Time where
  sec : Int
  nsec : Nat
  offset : Int

/-- Go `t.Unix()`. -/
def Time.unix (t : Time) : Int := t.sec

/-- Two decimal digits. -/
def twoDigits (n : Nat) : String :=
  String.mk [Char.ofNat (48 + n / 10 % 10), Char.ofNat (48 + n % 10)]

/-- Go `t.Format("150405")`: hour, minute and second of the local wall clock. -/
def Time.format150405 (t : Time) : String :=
  let s : Nat := ((t.sec + t.offset) % 86400).toNat
  twoDigits (s / 3600) ++ twoDigits (s % 3600 / 60) ++ twoDigits (s % 60)

/-- Go `writeChoices`. `now` is the first reading of the clock (`created`), `idNow` the second
(`id`). A missing `opt["content"]` reads as nil. -/
def writeChoices (now idNow : Time) (code : Int) (opt : Object) : Reply :=
  writeJSON code (.obj [
    ("choices", .arr [
      .obj [
        ("finish_reason", .str "stop"),
        ("index", .num 0),
        ("message", .obj [
          ("content", (opt.get "content").getD .null),
          ("role", .str "assistant")])]]),
    ("created", .num now.unix),
    ("id", .str ("shim-" ++ idNow.format150405)),
    ("model", .str "gemini-2.5-pro"),
    ("object", .str "chat.completion")])

/-! ## Response normalizer (`extractGeminiText`, `handleChat` lines 97-155) -/

/-- The inner loop of `extractGeminiText`: appends to `b` the string `text` of every part that has
one. -/
def appendPartsText (b : String) (parts : List Value) : String :=
  parts.foldl (fun b p =>
    let pm := (asMap (some p)).getD []
    match getString pm "text" with
    | some s => b ++ s
    | none => b) b

/-- Go `extractGeminiText`. A failed type assertion leaves the nil map or nil slice, which reads
like an empty one. -/
def extractGeminiText (j : Object) : String :=
  match asSlice (j.get "candidates") with
  | none => ""
  | some cs =>
    cs.foldl (fun b c =>
      let cm := (asMap (some c)).getD []
      let content := (asMap (cm.get "content")).getD []
      let parts := (asSlice (content.get "parts")).getD []
      let parts := if parts.length = 0 then (asSlice (cm.get "parts")).getD [] else parts
      appendPartsText b parts) ""

/-- Lines 116-126: the fill-in of a blank `choices[0].message.content` by the raw body, on a
`jr` whose `choices` is the sequence `first :: rest`. -/
def patchChoices (jr : Object) (first : Value) (rest : List Value) (raw : String) : Object :=
  match asMap (some first) with
  | some first =>
    match asMap (first.get "message") with
    | some msg =>
      match getString msg "content" with
      | some c =>
        if isBlank c then
          let msg := msg.set "content" (.str raw)
          let first := first.set "message" (.obj msg)
          jr.set "choices" (.arr (.obj first :: rest))
        else jr
      | none => jr
    | none => jr
  | none => jr

/-- One iteration of the loop of lines 140-151, for the key `k`: the content it returns with,
or `none` when it falls through to the next key. -/
def probeKey (jr : Object) (k : String) : Option String :=
  let nested : Option String :=
    match asMap (jr.get k) with
    | some m =>
      match getString m "content" with
      | some s => if !isBlank s then some s else none
      | none => none
    | none => none
  match getString jr k with
  | some s => if !isBlank s then some s else nested
  | none => nested

/-- The loop of lines 140-151 over the keys `ks`: the content of the first iteration that
returns. -/
def probeFields (jr : Object) : List String → Option String
  | [] => none
  | k :: ks =>
    match probeKey jr k with
    | some s => some s
    | none => probeFields jr ks

/-- Lines 136-154 of `handleChat`: the Gemini shape, the probe of `text`, `message` and
`content`, and the fallback to the raw body. -/
def normalizeRest (now idNow : Time) (jr : Object) (raw : String) : Reply :=
  let text := extractGeminiText jr
  if !isBlank text then writeChoices now idNow 200 [("content", .str text)]
  else
    match probeFields jr ["text", "message", "content"] with
    | some s => writeChoices now idNow 200 [("content", .str s)]
    | none => writeChoices now idNow 200 [("content", .str raw)]

/-- Lines 102-155 of `handleChat`: the reply for a received response. `jr` is read only, so the
nil map that the body `null` decodes to behaves as the empty map. -/
def normalize (J : Json) (now idNow : Time) (resp : Response) : Reply :=
  let raw := resp.body
  if raw.length = 0 then
    writeChoices now idNow 200
      [("content", .str ("Upstream returned empty response (status " ++ resp.status ++ ")"))]
  else
    match unmarshalMap J raw with
    | .error _ => writeChoices now idNow 200 [("content", .str raw)]
    | .ok decoded =>
      let jr : Object := decoded.getD []
      match asSlice (jr.get "choices") with
      | some (first :: rest) => writeJSON resp.statusCode (.obj (patchChoices jr first rest raw))
      | _ =>
        match getString jr "output_text" with
        | some s =>
          if !isBlank s then writeChoices now idNow 200 [("content", .str s)]
          else normalizeRest now idNow jr raw
        | none => normalizeRest now idNow jr raw

/-! ## The handler -/

/-- The request built on lines 75-79. -/
structure Request where
  url : String
  authorization : Option String
  contentType : String
  body : String

/-- What is outside the program: `encoding/json`, the process environment, whether `url.Parse`
accepts a URL (on which `http.NewRequest` succeeds or fails), the outcome of the call of
`client.Do(req)` made with loop counter `k` (`.error e`: a non-nil `err` with text `e`), the result
of a `float64` to `int64` conversion Go leaves to the implementation, and the two readings of the
clock in `writeChoices`. -/
structure World where
  json : Json
  getenv : String → String
  parseURL : String → Bool
  send : Request → Nat → Except String Response
  conv : Nat → Int
  now : Time
  idNow : Time

/-- Lines 75-79: the request for the upstream, with the body `body`. `none`: the URL does not
parse, `http.NewRequest` returns a nil request with an error, and line 75 drops the error. -/
def newRequest (parseURL : String → Bool) (getenv : String → String) (body : String) :
    Option Request :=
  if parseURL (qhaiBase getenv ++ "/chat/completions") then
    some
      { url := qhaiBase getenv ++ "/chat/completions"
        authorization := if qhaiKey getenv ≠ "" then some ("Bearer " ++ qhaiKey getenv) else none
        contentType := "application/json"
        body := body }
  else none

/-- What one run of `handleChat` does: the request it sends, the calls of `client.Do` and of
`time.Sleep` it makes, in order, and the reply it writes. -/
structure Outcome where
  request : Request
  trace : List Event
  reply : Reply

/-- Go `handleChat` on the request body `body`. On a nil request `req.Header.Set` (line 77, or
line 79 when no key is configured) panics before any call is made. After a loop that ran no
iteration `resp` is nil, and `resp.Body` panics. -/
def handleChat (W : World) (body : String) : Except Fault Outcome :=
  match sanitizeRequest W.json body with
  | .error f => .error f
  | .ok s =>
    match newRequest W.parseURL W.getenv s.body with
    | none => .error .nilDeref
    | some req =>
      let retry := envOrInt W.getenv "SHIM_RETRY" 2
      let st := runLoop W.conv (W.send req) retry
      match st.err with
      | some e =>
        .ok { request := req, trace := st.trace,
              reply :=
                writeChoices W.now W.idNow 200 [("content", .str ("Upstream error: " ++ e))] }
      | none =>
        match st.resp with
        | none => .error .nilDeref
        | some resp =>
          .ok { request := req, trace := st.trace, reply := normalize W.json W.now W.idNow resp }

/-- The value at `choices[0].message.content` of a reply, when the reply has that shape. -/
def Reply.content (r : Reply) : Option Value :=
  match r.body with
  | .obj m =>
    match Object.get m "choices" with
    | some (.arr (.obj c :: _)) =>
      match Object.get c "message" with
      | some (.obj msg) => Object.get msg "content"
      | _ => none
    | _ => none
  | _ => none

namespace Mini

/-- Drops leading JSON whitespace. -/
def skipWs (cs : List Char) : List Char :=
  cs.dropWhile (fun c => c = ' ' || c = '\n' || c = '\t' || c = '\r')

/-- Reads the rest of a string after its opening quote, up to the closing quote. Escapes and
control characters are not accepted. -/
def readString : List Char → List Char → Option (String × List Char)
  | _, [] => none
  | acc, c :: cs =>
    if c = '"' then some (String.mk acc.reverse, cs)
    else if c = '\\' || c.toNat < 32 then none
    else readString (c :: acc) cs

/-- Reads a run of decimal digits as a natural number. -/
def readDigits : Nat → List Char → Nat × List Char
  | n, [] => (n, [])
  | n, c :: cs => if c.isDigit then readDigits (10 * n + (c.toNat - 48)) cs else (n, c :: cs)

/-- A natural number stored as it is. -/
def exactNum (n : Nat) : Option Nat := some n

/-- The number of low bits of `n` beyond the 53 bits of a `float64` mantissa, up to the first
argument. -/
def excessBits : Nat → Nat → Nat
  | 0, _ => 0
  | fuel + 1, n => if n < 2 ^ 53 then 0 else excessBits fuel (n / 2) + 1

/-- The `float64` nearest to the natural number `n`, a tie going to the even mantissa; `none`
when the result is beyond the range of `float64`, that is, when it has more than `53 + 971`
bits. -/
def float64Num (n : Nat) : Option Nat :=
  let e := excessBits 1100 n
  let q := n / 2 ^ e
  let r := n % 2 ^ e
  let m := if 2 ^ e < 2 * r || (2 * r == 2 ^ e && q % 2 == 1) then q + 1 else q
  if excessBits 1100 (m * 2 ^ e) ≤ 971 then some (m * 2 ^ e) else none

mutual

/-- Reads one JSON value; `num` stores the magnitude of a number. An object keeps the last of
several entries of one key. -/
def readValue (num : Nat → Option Nat) : Nat → List Char → Option (Value × List Char)
  | 0, _ => none
  | fuel + 1, cs =>
    match skipWs cs with
    | 'n' :: 'u' :: 'l' :: 'l' :: r => some (.null, r)
    | 't' :: 'r' :: 'u' :: 'e' :: r => some (.bool true, r)
    | 'f' :: 'a' :: 'l' :: 's' :: 'e' :: r => some (.bool false, r)
    | '"' :: r =>
      match readString [] r with
      | some (s, r) => some (.str s, r)
      | none => none
    | '[' :: r =>
      match skipWs r with
      | ']' :: r => some (.arr [], r)
      | r => readElems num fuel [] r
    | '{' :: r =>
      match skipWs r with
      | '}' :: r => some (.obj [], r)
      | r => readMembers num fuel [] r
    | '-' :: c :: r =>
      if c.isDigit then
        let (n, r) := readDigits 0 (c :: r)
        match num n with
        | some n => some (.num (-(n : Int) : Int), r)
        | none => none
      else none
    | c :: r =>
      if c.isDigit then
        let (n, r) := readDigits 0 (c :: r)
        match num n with
        | some n => some (.num (n : Int), r)
        | none => none
      else none
    | [] => none

/-- Reads the elements of an array up to its closing bracket; `acc` holds those read so far, last
first. -/
def readElems (num : Nat → Option Nat) :
    Nat → List Value → List Char → Option (Value × List Char)
  | 0, _, _ => none
  | fuel + 1, acc, cs =>
    match readValue num fuel cs with
    | none => none
    | some (v, r) =>
      match skipWs r with
      | ',' :: r => readElems num fuel (v :: acc) r
      | ']' :: r => some (.arr (v :: acc).reverse, r)
      | _ => none

/-- Reads the members of an object up to its closing brace into `acc`. -/
def readMembers (num : Nat → Option Nat) :
    Nat → Object → List Char → Option (Value × List Char)
  | 0, _, _ => none
  | fuel + 1, acc, cs =>
    match skipWs cs with
    | '"' :: r =>
      match readString [] r with
      | none => none
      | some (k, r) =>
        match skipWs r with
        | ':' :: r =>
          match readValue num fuel r with
          | none => none
          | some (v, r) =>
            match skipWs r with
            | ',' :: r => readMembers num fuel (acc.set k v) r
            | '}' :: r => some (.obj (acc.set k v), r)
            | _ => none
        | _ => none
    | _ => none

end

/-- Reads one JSON text: a value, with nothing but whitespace after it. -/
def parse (num : Nat → Option Nat) (s : String) : Option Value :=
  match readValue num (s.length + 1) s.data with
  | some (v, r) => if (skipWs r).isEmpty then some v else none
  | none => none

/-- Writes a string; one that would need an escape is not written. -/
def writeString (s : String) : Option String :=
  if s.data.all (fun c => c ≠ '"' && c ≠ '\\' && 32 ≤ c.toNat) then some ("\"" ++ s ++ "\"")
  else none

/-- Writes a value, compactly, the entries of an object in list order. A number is written when
it is an integer of magnitude at most `2^53`, for which `json.Marshal` writes the digits of the
integer. Nesting deeper than the first argument and other numbers are not written. -/
def writeValue : Nat → Value → Option String
  | 0, _ => none
  | fuel + 1, v =>
    match v with
    | .null => some "null"
    | .bool true => some "true"
    | .bool false => some "false"
    | .num q => if q.den = 1 ∧ q.num.natAbs ≤ 2 ^ 53 then some (toString q.num) else none
    | .str s => writeString s
    | .arr xs =>
      match xs.mapM (writeValue fuel) with
      | some ss => some ("[" ++ ",".intercalate ss ++ "]")
      | none => none
    | .obj kvs =>
      match kvs.mapM (fun kv =>
          match writeString kv.1, writeValue fuel kv.2 with
          | some k, some v => some (k ++ ":" ++ v)
          | _, _ => none) with
      | some ss => some ("\x7b" ++ ",".intercalate ss ++ "\x7d")
      | none => none

end Mini

/-- The small instance: numbers are read as `encoding/json` stores them. -/
def miniJson : Json := { parse := Mini.parse Mini.float64Num, marshal := Mini.writeValue 64 }

/-- The JSON data a text denotes, numbers exact. -/
def denotation (s : String) : Option Value := Mini.parse Mini.exactNum s

/-! ## Sample inputs -/

/-- A request body with an `extra_params` mapping. -/
def sampleBody : String :=
  "\x7b\"extra_params\":\x7b\"enable_thoughts\":true\x7d,\"model\":\"m\"\x7d"

/-- The payload `sampleBody` decodes to. -/
def samplePayload : Object :=
  [("extra_params", .obj [("enable_thoughts", .bool true)]), ("model", .str "m")]

/-- The body the sanitizer forwards for `sampleBody`. -/
def sampleForwarded : String :=
  "\x7b\"enable_reasoning\":false,\"enable_thinking\":false,\"enable_thoughts\":false,\"extra_params\":\x7b\"enable_reasoning\":false,\"enable_thinking\":false,\"enable_thoughts\":false,\"response_format\":\x7b\"type\":\"text\"\x7d,\"thinking_budget_token_limit\":100\x7d,\"model\":\"m\",\"response_format\":\x7b\"type\":\"text\"\x7d,\"thinking_budget_token_limit\":100\x7d"

/-- A request body with an integer that is not a `float64`: `2^53 + 1`. -/
def bigSeedBody : String := "\x7b\"seed\":9007199254740993\x7d"

/-- The body the sanitizer forwards for `bigSeedBody`. -/
def bigSeedForwarded : String :=
  "\x7b\"enable_reasoning\":false,\"enable_thinking\":false,\"enable_thoughts\":false,\"response_format\":\x7b\"type\":\"text\"\x7d,\"seed\":9007199254740992,\"thinking_budget_token_limit\":100\x7d"

/-- A clock reading. -/
def sampleTime : Time := { sec := 1700000000, nsec := 0, offset := 3600 }

/-- A small stand-in for `url.Parse`: it accepts the URLs without an ASCII control character
(`url.Parse` rejects every URL that has one). -/
def sampleParseURL (u : String) : Bool :=
  u.data.all (fun c => 32 ≤ c.toNat && c.toNat ≠ 127)

/-- A world with the small JSON instance and no variable set in the environment, in which every
call of `client.Do` has the outcome `outcome`. -/
def constWorld (outcome : Except String Response) : World :=
  { json := miniJson
    getenv := fun _ => ""
    parseURL := sampleParseURL
    send := fun _ _ => outcome
    conv := fun _ => -(2 : Int) ^ 63
    now := sampleTime
    idNow := sampleTime }

/-- A world in which the upstream cannot be reached. -/
def refusedWorld : World := constWorld (.error "connection refused")

/-- A response with an error status. -/
def sampleResponse : Response :=
  { status := "503 Service Unavailable", statusCode := 503, body := "busy" }

/-- An upstream response in the OpenAI shape whose first choice has a blank content. -/
def blankChoiceResponse : Response :=
  { status := "200 OK", statusCode := 200,
    body := "\x7b\"choices\":[\x7b\"message\":\x7b\"content\":\"   \"\x7d\x7d]\x7d" }

/-- An upstream response with a plain output field next to a `text` field. -/
def outputTextResponse : Response :=
  { status := "200 OK", statusCode := 200,
    body := "\x7b\"output_text\": \"hi\", \"text\": \"other\"\x7d" }

/-- Outcomes of the calls of `client.Do`: the first two fail, the third receives a response. -/
def thirdTimeLucky (k : Nat) : Except String Response :=
  if k < 2 then .error "timeout" else .ok sampleResponse

/-! ## The Gemini shape, as the specification words it -/

/-- The string field `text` of a part; `none` when the part is no mapping or has no such
string. -/
def partText (p : Value) : Option String :=
  getString ((asMap (some p)).getD []) "text"

/-- The sequence at `content.parts` of a candidate; `none` when the candidate is no mapping, has
no mapping at `content`, or that has no sequence at `parts`. -/
def contentParts (c : Value) : Option (List Value) :=
  asSlice (Object.get ((asMap (Object.get ((asMap (some c)).getD []) "content")).getD []) "parts")

/-- The sequence at `parts` directly on a candidate; `none` when there is none. -/
def directParts (c : Value) : Option (List Value) :=
  asSlice (Object.get ((asMap (some c)).getD []) "parts")

/-- The parts the loop body of `extractGeminiText` goes through for the candidate `c`
(lines 164-169). -/
def candidateParts (c : Value) : List Value :=
  if ((contentParts c).getD []).length = 0 then (directParts c).getD []
  else (contentParts c).getD []

/-- The concatenation of strings in order, with no separator. -/
def joinAll : List String → String
  | [] => ""
  | s :: ss => s ++ joinAll ss

/-- The concatenation, with no separator, of the string `text` of every part of every candidate,
in candidate order and then part order, where `parts c` are the parts of the candidate `c`. -/
def concatTexts (parts : Value → List Value) (cs : List Value) : String :=
  joinAll (cs.flatMap (fun c => (parts c).filterMap partText))

/-- The upstream response of the Gemini example. -/
def geminiResponse : Response :=
  { status := "200 OK", statusCode := 200,
    body := "\x7b\"candidates\":[\x7b\"content\":\x7b\"parts\":[\x7b\"text\":\"foo\"\x7d,\x7b\"text\":\"bar\"\x7d]\x7d\x7d]\x7d" }

/-- The candidates of `geminiResponse`. -/
def geminiCandidates : List Value :=
  [.obj [("content",
    .obj [("parts", .arr [.obj [("text", .str "foo")], .obj [("text", .str "bar")]])])]]

/-- The object `geminiResponse` decodes to. -/
def geminiObject : Object := [("candidates", .arr geminiCandidates)]

/-- A candidate with an empty `content.parts` and a `parts` of its own. -/
def emptyPartsCandidate : Value :=
  .obj [("content", .obj [("parts", .arr [])]), ("parts", .arr [.obj [("text", .str "x")]])]

/-- An object whose one candidate is `emptyPartsCandidate`. -/
def emptyPartsObject : Object := [("candidates", .arr [emptyPartsCandidate])]

/-! ## The generic field probe, as the specification words it -/

/-- The string field `content` of the mapping at key `k` of `jr` (`X.content`); `none` when `jr`
has no mapping at `k` or the mapping has no string at `content`. -/
def nestedContent (jr : Object) (k : String) : Option String :=
  match asMap (jr.get k) with
  | some m => getString m "content"
  | none => none

/-- The probe sequence text-as-string, `text.content`, message-as-string, `message.content`,
content-as-string, `content.content`; X-as-string is `getString jr X`. -/
def probeSequence (jr : Object) : List (Option String) :=
  [getString jr "text", nestedContent jr "text",
   getString jr "message", nestedContent jr "message",
   getString jr "content", nestedContent jr "content"]

/-- The first probe that gives a string which is not blank. -/
def firstNonBlank : List (Option String) → Option String
  | [] => none
  | some s :: rest => if isBlank s then firstNonBlank rest else some s
  | none :: rest => firstNonBlank rest

/-- An upstream response with a `text`, a `message` and a `content` string. -/
def textFirstResponse : Response :=
  { status := "200 OK", statusCode := 200,
    body := "\x7b\"content\":\"c\",\"message\":\"m\",\"text\":\"t\"\x7d" }

/-- The object `textFirstResponse` decodes to. -/
def textFirstObject : Object :=
  [("content", .str "c"), ("message", .str "m"), ("text", .str "t")]

/-- An upstream response with a blank `text`, a mapping at `message` and a `content` string. -/
def nestedMessageResponse : Response :=
  { status := "200 OK", statusCode := 200,
    body := "\x7b\"content\":\"c\",\"message\":\x7b\"content\":\"nested\"\x7d,\"text\":\" \"\x7d" }

/-- The object `nestedMessageResponse` decodes to. -/
def nestedMessageObject : Object :=
  [("content", .str "c"), ("message", .obj [("content", .str "nested")]), ("text", .str " ")]

/-- An upstream response none of whose fields is recognized. -/
def unknownShapeResponse : Response :=
  { status := "200 OK", statusCode := 200,
    body := "\x7b\"result\":\"r\",\"text\":\"  \"\x7d" }

/-- The object `unknownShapeResponse` decodes to. -/
def unknownShapeObject : Object := [("result", .str "r"), ("text", .str "  ")]

/-- An upstream response whose body is plain text. -/
def plainTextResponse : Response :=
  { status := "200 OK", statusCode := 200, body := "plain text reply" }

/-- An upstream response with an error status and no body. -/
def emptyBodyResponse : Response :=
  { status := "503 Service Unavailable", statusCode := 503, body := "" }

/-- An upstream response in the OpenAI shape with an error status. -/
def rateLimitedResponse : Response :=
  { status := "429 Too Many Requests", statusCode := 429,
    body := "\x7b\"choices\":[\x7b\"message\":\x7b\"content\":\"slow down\"\x7d\x7d]\x7d" }

/-- A world whose upstream answers every call with `emptyBodyResponse`. -/
def emptyBodyWorld : World := constWorld (.ok emptyBodyResponse)

/-- A world whose upstream answers every call with `rateLimitedResponse`. -/
def rateLimitedWorld : World := constWorld (.ok rateLimitedResponse)

/-- The upstream body takes the pass-through of lines 116-128: it is not empty and decodes to a
JSON object with a non-empty `choices` sequence. -/
def PassesThrough (J : Json) (resp : Response) : Prop :=
  resp.body ≠ "" ∧
    ∃ (jr : Object) (first : Value) (rest : List Value),
      J.parse resp.body = some (.obj jr) ∧ jr.get "choices" = some (.arr (first :: rest))

/-- The value at `id` of a reply. -/
def Reply.id (r : Reply) : Option Value :=
  match r.body with
  | .obj m => Object.get m "id"
  | _ => none

/-- A clock reading later in the second of `sampleTime`. -/
def sampleTimeSameSecond : Time := { sec := 1700000000, nsec := 999999999, offset := 3600 }

/-- The clock reading one day after `sampleTime`. -/
def sampleTimeNextDay : Time := { sec := 1700086400, nsec := 0, offset := 3600 }

/-- A world whose upstream always answers, with the retry count `-1` in the environment. -/
def negativeRetryWorld : World :=
  { json := miniJson
    getenv := fun k => if k = "SHIM_RETRY" then "-1" else ""
    parseURL := sampleParseURL
    send := fun _ _ => .ok sampleResponse
    conv := fun _ => -(2 : Int) ^ 63
    now := sampleTime
    idNow := sampleTime }

/-- A world whose upstream always answers, with a line feed in `QHAI_BASE`. -/
def badBaseWorld : World :=
  { json := miniJson
    getenv := fun k => if k = "QHAI_BASE" then "http://up\nstream" else ""
    parseURL := sampleParseURL
    send := fun _ _ => .ok sampleResponse
    conv := fun _ => -(2 : Int) ^ 63
    now := sampleTime
    idNow := sampleTime }

/-- The request the sample worlds build for the body `body`: no variable is set in their
environment. -/
def sampleRequest (body : String) : Request :=
  { url := "https://api.qhaigc.net/v1/chat/completions"
    authorization := none
    contentType := "application/json"
    body := body }

/-- The loop ended holding a response and no error, or an error and no response. -/
def LoopState.Holds (st : LoopState) : Prop :=
  (st.err = none ∧ ∃ r, st.resp = some r) ∨ (∃ e, st.err = some e ∧ st.resp = none)

end NachoBot

namespace NachoBot

/-! ## Finite maps -/

theorem Object.get_cons (k' : String) (v' : Value) (rest : Object) (k : String) :
    Object.get ((k', v') :: rest) k = if k' = k then some v' else Object.get rest k := rfl

theorem Object.set_cons (k' : String) (v' : Value) (rest : Object) (k : String) (v : Value) :
    Object.set ((k', v') :: rest) k v =
      if k' = k then (k, v) :: rest
      else if keyLt k.data k'.data then (k, v) :: (k', v') :: rest
      else (k', v') :: Object.set rest k v := rfl

theorem Object.get_set_self (m : Object) (k : String) (v : Value) :
    (m.set k v).get k = some v := by
  induction m with
  | nil => simp [Object.set, Object.get]
  | cons kv rest ih =>
    obtain ⟨k', v'⟩ := kv
    rw [Object.set_cons]
    split_ifs with h1 h2
    · simp [Object.get_cons]
    · simp [Object.get_cons]
    · simpa [Object.get_cons, h1] using ih

theorem Object.get_set_of_ne (m : Object) (k k2 : String) (v : Value) (h : k2 ≠ k) :
    (m.set k v).get k2 = m.get k2 := by
  induction m with
  | nil => simp [Object.set, Object.get, Ne.symm h]
  | cons kv rest ih =>
    obtain ⟨k', v'⟩ := kv
    rw [Object.set_cons]
    split_ifs with h1 h2
    · subst h1; simp [Object.get_cons, Ne.symm h]
    · simp [Object.get_cons, Ne.symm h]
    · simp only [Object.get_cons, ih]

theorem keyLt_asymm : ∀ a b : List Char, keyLt a b = true → keyLt b a = false
  | _, [], h => by simp [keyLt] at h
  | [], _ :: _, _ => by simp [keyLt]
  | a :: as, b :: bs, h => by
    unfold keyLt at h ⊢
    split_ifs at h ⊢ <;> first | rfl | omega | simp at h | exact keyLt_asymm as bs h

theorem keyLt_trans : ∀ a b c : List Char, keyLt a b = true → keyLt b c = true → keyLt a c = true
  | _, _, [], _, h2 => by simp [keyLt] at h2
  | _, [], _ :: _, h1, _ => by simp [keyLt] at h1
  | [], _ :: _, _ :: _, _, _ => by simp [keyLt]
  | a :: as, b :: bs, c :: cs, h1, h2 => by
    unfold keyLt at h1 h2 ⊢
    split_ifs at h1 h2 ⊢ <;>
      first | rfl | omega | simp at h1 | simp at h2 | exact keyLt_trans as bs cs h1 h2

theorem Object.set_set_self (m : Object) (k : String) (v : Value) :
    (m.set k v).set k v = m.set k v := by
  induction m with
  | nil => simp [Object.set]
  | cons kv rest ih =>
    obtain ⟨k', v'⟩ := kv
    rw [Object.set_cons]
    split_ifs with h1 h2
    · simp [Object.set_cons]
    · simp [Object.set_cons]
    · rw [Object.set_cons]; simpa [h1, h2] using ih

theorem Object.set_fixed_of_ne (m : Object) (k k2 : String) (v v2 : Value)
    (h : m.set k v = m) (hne : k2 ≠ k) : (m.set k2 v2).set k v = m.set k2 v2 := by
  induction m with
  | nil => simp [Object.set] at h
  | cons kv rest ih =>
    obtain ⟨k', v'⟩ := kv
    rw [Object.set_cons] at h
    split_ifs at h with h1 h2
    · -- the head is the entry of k
      subst h1
      have hv : v = v' := by simpa using h
      subst hv
      rw [Object.set_cons]
      split_ifs with h3 h4
      · exact absurd h3.symm hne
      · have := keyLt_asymm _ _ h4
        simp [Object.set_cons, hne, this]
      · simp [Object.set_cons]
    · have := congrArg List.length h
      simp at this
    · have hrest : Object.set rest k v = rest := by simpa using h
      rw [Object.set_cons]
      split_ifs with h3 h4
      · subst h3
        simp [Object.set_cons, h1, h2, hrest]
      · have hk : keyLt k.data k2.data = false := by
          by_contra hc
          exact h2 (keyLt_trans _ _ _ (by simpa using hc) h4)
        simp [Object.set_cons, hne, hk, h1, h2, hrest]
      · rw [Object.set_cons]; simpa [h1, h2] using ih hrest


theorem keyLt_total : ∀ a b : List Char, a ≠ b → keyLt a b = true ∨ keyLt b a = true
  | [], [], h => absurd rfl h
  | [], _ :: _, _ => by simp [keyLt]
  | _ :: _, [], _ => by simp [keyLt]
  | a :: as, b :: bs, h => by
    unfold keyLt
    by_cases h1 : a.toNat < b.toNat
    · simp [h1]
    · by_cases h2 : b.toNat < a.toNat
      · simp [h2]
      · have hab : a = b := Char.ext (UInt32.toNat.inj (by
          have : a.toNat = b.toNat := by omega
          exact this))
        subst hab
        simp only [h1, if_false]
        exact keyLt_total as bs (fun he => h (by rw [he]))

theorem Object.mem_set (m : Object) (k : String) (v : Value) (x : String × Value)
    (h : x ∈ m.set k v) : x = (k, v) ∨ x ∈ m := by
  induction m with
  | nil => simpa [Object.set] using h
  | cons kv rest ih =>
    obtain ⟨k', v'⟩ := kv
    rw [Object.set_cons] at h
    split_ifs at h with h1 h2
    · rcases List.mem_cons.mp h with h | h
      · exact Or.inl h
      · exact Or.inr (List.mem_cons_of_mem _ h)
    · rcases List.mem_cons.mp h with h | h
      · exact Or.inl h
      · exact Or.inr h
    · rcases List.mem_cons.mp h with h | h
      · exact Or.inr (h ▸ List.mem_cons_self _ _)
      · rcases ih h with h | h
        · exact Or.inl h
        · exact Or.inr (List.mem_cons_of_mem _ h)

/-- An assignment keeps the keys in ascending order. -/
theorem Object.set_sorted (m : Object) (k : String) (v : Value) (h : m.Sorted) :
    (m.set k v).Sorted := by
  unfold Object.Sorted at h ⊢
  induction m with
  | nil => simp [Object.set]
  | cons kv rest ih =>
    obtain ⟨k', v'⟩ := kv
    obtain ⟨hhead, hrest⟩ := List.pairwise_cons.mp h
    rw [Object.set_cons]
    split_ifs with h1 h2
    · subst h1
      exact List.pairwise_cons.mpr ⟨hhead, hrest⟩
    · refine List.pairwise_cons.mpr ⟨fun x hx => ?_, h⟩
      rcases List.mem_cons.mp hx with hx | hx
      · subst hx; exact h2
      · exact keyLt_trans _ _ _ h2 (hhead x hx)
    · refine List.pairwise_cons.mpr ⟨fun x hx => ?_, ih hrest⟩
      rcases Object.mem_set rest k v x hx with hx | hx
      · subst hx
        have hne : k'.data ≠ k.data := fun he => h1 (String.ext he)
        rcases keyLt_total _ _ hne with h3 | h3
        · exact h3
        · exact absurd h3 h2
      · exact hhead x hx

theorem asSlice_eq_some (x : Option Value) (xs : List Value) :
    asSlice x = some xs ↔ x = some (.arr xs) := by
  unfold asSlice
  split <;> simp_all

theorem asMap_eq_some (x : Option Value) (m : Object) :
    asMap x = some m ↔ x = some (.obj m) := by
  unfold asMap
  split <;> simp_all

theorem getString_eq_some (m : Object) (k s : String) :
    getString m k = some s ↔ m.get k = some (.str s) := by
  unfold getString
  split <;> simp_all

/-! ## Request sanitizer -/

theorem sanitizePayload_eq (m : Object) :
    sanitizePayload m =
      match asMap ((applyOverrides m).get "extra_params") with
      | some params => (applyOverrides m).set "extra_params" (.obj (applyOverrides params))
      | none => applyOverrides m := rfl

theorem applyOverrides_suppressed (m : Object) : Suppressed (applyOverrides m) := by
  unfold Suppressed applyOverrides
  refine ⟨?_, ?_, ?_, ?_, ?_⟩ <;>
    simp only [Object.get_set_self, Object.get_set_of_ne, ne_eq, String.reduceEq, not_false_eq_true]

theorem applyOverrides_get_of_not_mem (m : Object) (k : String) (h : k ∉ overrideKeys) :
    (applyOverrides m).get k = m.get k := by
  simp only [overrideKeys, List.mem_cons, List.mem_singleton, List.not_mem_nil, or_false,
    not_or] at h
  obtain ⟨h1, h2, h3, h4, h5⟩ := h
  unfold applyOverrides
  rw [Object.get_set_of_ne _ _ _ _ h5, Object.get_set_of_ne _ _ _ _ h4,
    Object.get_set_of_ne _ _ _ _ h3, Object.get_set_of_ne _ _ _ _ h2,
    Object.get_set_of_ne _ _ _ _ h1]

theorem applyOverrides_fixed (m : Object)
    (h1 : m.set "enable_thinking" (.bool false) = m)
    (h2 : m.set "enable_thoughts" (.bool false) = m)
    (h3 : m.set "enable_reasoning" (.bool false) = m)
    (h4 : m.set "response_format" (.obj [("type", .str "text")]) = m)
    (h5 : m.set "thinking_budget_token_limit" (.num 100) = m) : applyOverrides m = m := by
  unfold applyOverrides
  rw [h1, h2, h3, h4, h5]

theorem applyOverrides_idem (m : Object) : applyOverrides (applyOverrides m) = applyOverrides m := by
  apply applyOverrides_fixed <;> unfold applyOverrides <;>
    repeat (first
      | exact Object.set_set_self _ _ _
      | apply Object.set_fixed_of_ne _ _ _ _ _ _ (by decide))

theorem applyOverrides_set_extra (m : Object) (v : Value) :
    applyOverrides ((applyOverrides m).set "extra_params" v) =
      (applyOverrides m).set "extra_params" v := by
  apply applyOverrides_fixed <;> apply Object.set_fixed_of_ne _ _ _ _ _ _ (by decide) <;>
    unfold applyOverrides <;>
    repeat (first
      | exact Object.set_set_self _ _ _
      | apply Object.set_fixed_of_ne _ _ _ _ _ _ (by decide))

theorem sanitizePayload_idem (m : Object) :
    sanitizePayload (sanitizePayload m) = sanitizePayload m := by
  rw [sanitizePayload_eq m]
  cases hm : asMap ((applyOverrides m).get "extra_params") with
  | none =>
    simp only
    rw [sanitizePayload_eq, applyOverrides_idem, hm]
  | some params =>
    simp only
    rw [sanitizePayload_eq, applyOverrides_set_extra, Object.get_set_self]
    simp only [asMap]
    rw [applyOverrides_idem, Object.set_set_self]


theorem unmarshalMap_obj (J : Json) (data : String) (m : Object)
    (h : J.parse data = some (.obj m)) : unmarshalMap J data = .ok (some m) := by
  simp [unmarshalMap, h]

theorem unmarshalMap_null (J : Json) (data : String) (h : J.parse data = some .null) :
    unmarshalMap J data = .ok none := by
  simp [unmarshalMap, h]

/-- The cases in which `json.Unmarshal` into the map returns an error: the text is not JSON, or
it is a JSON boolean, number, string or array. -/
theorem unmarshalMap_error (J : Json) (data : String)
    (h : J.parse data = none ∨ (∃ b, J.parse data = some (.bool b)) ∨
      (∃ q, J.parse data = some (.num q)) ∨ (∃ s, J.parse data = some (.str s)) ∨
      (∃ xs, J.parse data = some (.arr xs))) :
    ∃ e, unmarshalMap J data = .error e := by
  rcases h with h | ⟨b, h⟩ | ⟨q, h⟩ | ⟨s, h⟩ | ⟨xs, h⟩ <;> simp [unmarshalMap, h]

theorem sanitizeRequest_obj (J : Json) (body : String) (m : Object)
    (h : J.parse body = some (.obj m)) :
    sanitizeRequest J body =
      .ok { payload := some (sanitizePayload m),
            body := (J.marshal (.obj (sanitizePayload m))).getD body } := by
  simp only [sanitizeRequest, unmarshalMap_obj J body m h]
  cases J.marshal (.obj (sanitizePayload m)) <;> rfl

theorem sanitizeRequest_null (J : Json) (body : String) (h : J.parse body = some .null) :
    sanitizeRequest J body = .error .nilMapAssign := by
  unfold sanitizeRequest
  rw [unmarshalMap_null J body h]

theorem sanitizeRequest_unparsed (J : Json) (body : String)
    (h : ∃ e, unmarshalMap J body = .error e) :
    sanitizeRequest J body = .ok { payload := none, body := body } := by
  obtain ⟨e, h⟩ := h
  unfold sanitizeRequest
  rw [h]

/-- Apart from a body that decodes to the nil map, the sanitizer yields a body to forward: the
original one, or the rewritten payload as `json.Marshal` writes it. -/
theorem sanitizeRequest_total (J : Json) (body : String) (h : J.parse body ≠ some .null) :
    ∃ s, sanitizeRequest J body = .ok s ∧
      (s.body = body ∨
        ∃ m, J.parse body = some (.obj m) ∧ J.marshal (.obj (sanitizePayload m)) = some s.body) := by
  cases hp : J.parse body with
  | none =>
    exact ⟨_, sanitizeRequest_unparsed J body (by simp [unmarshalMap, hp]), Or.inl rfl⟩
  | some v =>
    cases v with
    | null => exact absurd hp h
    | obj m =>
      refine ⟨_, sanitizeRequest_obj J body m hp, ?_⟩
      cases hm : J.marshal (.obj (sanitizePayload m)) with
      | none => exact Or.inl rfl
      | some nb => exact Or.inr ⟨m, rfl, by simp [hm]⟩
    | bool b => exact ⟨_, sanitizeRequest_unparsed J body (by simp [unmarshalMap, hp]), Or.inl rfl⟩
    | num q => exact ⟨_, sanitizeRequest_unparsed J body (by simp [unmarshalMap, hp]), Or.inl rfl⟩
    | str s => exact ⟨_, sanitizeRequest_unparsed J body (by simp [unmarshalMap, hp]), Or.inl rfl⟩
    | arr xs => exact ⟨_, sanitizeRequest_unparsed J body (by simp [unmarshalMap, hp]), Or.inl rfl⟩

theorem sanitizePayload_suppressed (m : Object) :
    Suppressed (sanitizePayload m) ∧
      ∀ params, (sanitizePayload m).get "extra_params" = some (.obj params) →
        Suppressed params := by
  rw [sanitizePayload_eq m]
  have hs := applyOverrides_suppressed m
  cases hm : asMap ((applyOverrides m).get "extra_params") with
  | none =>
    refine ⟨hs, fun params hp => ?_⟩
    simp only at hp
    rw [hp] at hm
    simp [asMap] at hm
  | some q =>
    simp only
    constructor
    · unfold Suppressed at hs ⊢
      simpa only [Object.get_set_of_ne, ne_eq, String.reduceEq, not_false_eq_true] using hs
    · intro params hp
      rw [Object.get_set_self] at hp
      have : applyOverrides q = params := by simpa using hp
      rw [← this]
      exact applyOverrides_suppressed q

/-- The sanitizer keeps a payload in ascending key order, at the top level and in
`extra_params`. -/
theorem sanitizePayload_sorted (m : Object) (h : m.Sorted)
    (hp : ∀ q : Object, m.get "extra_params" = some (.obj q) → q.Sorted) :
    (sanitizePayload m).Sorted ∧
      ∀ q : Object, (sanitizePayload m).get "extra_params" = some (.obj q) → q.Sorted := by
  have h5 : ∀ x : Object, x.Sorted → (applyOverrides x).Sorted := fun x hx => by
    unfold applyOverrides
    exact Object.set_sorted _ _ _ (Object.set_sorted _ _ _ (Object.set_sorted _ _ _
      (Object.set_sorted _ _ _ (Object.set_sorted _ _ _ hx))))
  have hx : (applyOverrides m).get "extra_params" = m.get "extra_params" :=
    applyOverrides_get_of_not_mem m _ (by decide)
  rw [sanitizePayload_eq m, hx]
  cases hm : asMap (m.get "extra_params") with
  | none =>
    refine ⟨h5 m h, fun q hq => ?_⟩
    simp only at hq
    rw [hx] at hq
    exact hp q hq
  | some p =>
    simp only
    refine ⟨Object.set_sorted _ _ _ (h5 m h), fun q hq => ?_⟩
    rw [Object.get_set_self] at hq
    have : applyOverrides p = q := by simpa using hq
    rw [← this]
    exact h5 p (hp p ((asMap_eq_some _ _).mp hm))

/-- C1: for every inbound body that parses as a JSON object, the payload the sanitizer builds
(the one whose serialization is forwarded) holds the five fixed values at the five override keys,
whatever the caller supplied, and so does its `extra_params` whenever that is a mapping. -/
theorem sanitize_overrides_win (J : Json) (body : String) (m : Object)
    (h : J.parse body = some (.obj m)) :
    ∃ s p, sanitizeRequest J body = .ok s ∧ s.payload = some p ∧
      (∀ nb, J.marshal (.obj p) = some nb → s.body = nb) ∧ Suppressed p ∧
      ∀ params, p.get "extra_params" = some (.obj params) → Suppressed params :=
  ⟨_, _, sanitizeRequest_obj J body m h, rfl, fun nb hnb => by simp [hnb],
    sanitizePayload_suppressed m⟩

theorem sanitize_overrides_win_witness :
    ∃ s p,
      sanitizeRequest miniJson
        "\x7b\"enable_thinking\":true,\"extra_params\":\x7b\"enable_thoughts\":true\x7d\x7d" =
          .ok s ∧
      s.payload = some p ∧
      (∀ nb, miniJson.marshal (.obj p) = some nb → s.body = nb) ∧ Suppressed p ∧
      ∀ params, p.get "extra_params" = some (.obj params) → Suppressed params :=
  sanitize_overrides_win miniJson _
    [("enable_thinking", .bool true), ("extra_params", .obj [("enable_thoughts", .bool true)])]
    rfl


theorem sanitizeRequest_idem (J : Json) (body : String)
    (hround : ∀ m nb, J.parse body = some (.obj m) →
      J.marshal (.obj (sanitizePayload m)) = some nb →
      J.parse nb = some (.obj (sanitizePayload m)))
    (s : Sanitized) (hs : sanitizeRequest J body = .ok s) :
    sanitizeRequest J s.body = .ok s := by
  cases hp : J.parse body with
  | none =>
    have h1 := sanitizeRequest_unparsed J body (by simp [unmarshalMap, hp])
    rw [h1] at hs
    cases hs
    exact h1
  | some v =>
    cases v with
    | null =>
      rw [sanitizeRequest_null J body hp] at hs
      cases hs
    | obj m =>
      have h1 := sanitizeRequest_obj J body m hp
      rw [h1] at hs
      cases hs
      cases hm : J.marshal (.obj (sanitizePayload m)) with
      | none => simpa [hm] using h1
      | some nb =>
        have h2 := sanitizeRequest_obj J nb (sanitizePayload m) (hround m nb hp hm)
        simpa [hm, sanitizePayload_idem] using h2
    | bool b =>
      have h1 := sanitizeRequest_unparsed J body (by simp [unmarshalMap, hp])
      rw [h1] at hs
      cases hs
      exact h1
    | num q =>
      have h1 := sanitizeRequest_unparsed J body (by simp [unmarshalMap, hp])
      rw [h1] at hs
      cases hs
      exact h1
    | str t =>
      have h1 := sanitizeRequest_unparsed J body (by simp [unmarshalMap, hp])
      rw [h1] at hs
      cases hs
      exact h1
    | arr xs =>
      have h1 := sanitizeRequest_unparsed J body (by simp [unmarshalMap, hp])
      rw [h1] at hs
      cases hs
      exact h1

/-- C5: the sanitizer is idempotent on request bodies. It yields a result for every body but one
that decodes to the nil map; and whenever it yields a result for `body`, running it on the body it
forwards yields that very result again: the same payload and the same bytes. A body that does not
decode is forwarded as it is, both times. The reader and writer are assumed to agree on the one
payload written: reading back the text that `json.Marshal` wrote for the sanitized payload gives
that payload. -/
theorem sanitize_idempotent (J : Json) (body : String)
    (hround : ∀ m nb, J.parse body = some (.obj m) →
      J.marshal (.obj (sanitizePayload m)) = some nb →
      J.parse nb = some (.obj (sanitizePayload m))) :
    (J.parse body ≠ some .null → ∃ s, sanitizeRequest J body = .ok s) ∧
    ∀ s, sanitizeRequest J body = .ok s →
      sanitizeRequest J s.body = .ok s ∧
      ((∃ e, unmarshalMap J body = .error e) → s.body = body) := by
  refine ⟨fun hn => ?_, fun s hs => ⟨sanitizeRequest_idem J body hround s hs, fun he => ?_⟩⟩
  · obtain ⟨s, hs, _⟩ := sanitizeRequest_total J body hn
    exact ⟨s, hs⟩
  · rw [sanitizeRequest_unparsed J body he] at hs
    cases hs
    rfl

set_option maxRecDepth 100000 in
theorem sanitize_idempotent_witness :
    (miniJson.parse sampleBody ≠ some .null → ∃ s, sanitizeRequest miniJson sampleBody = .ok s) ∧
    ∀ s, sanitizeRequest miniJson sampleBody = .ok s →
      sanitizeRequest miniJson s.body = .ok s ∧
      ((∃ e, unmarshalMap miniJson sampleBody = .error e) → s.body = sampleBody) :=
  sanitize_idempotent miniJson sampleBody
    (fun m nb hm hnb => by
      have h0 : miniJson.parse sampleBody = some (.obj samplePayload) := rfl
      rw [h0] at hm
      have hm2 : samplePayload = m := Value.obj.inj (Option.some.inj hm)
      subst hm2
      have h1 : miniJson.marshal (.obj (sanitizePayload samplePayload)) = some sampleForwarded :=
        rfl
      rw [h1] at hnb
      have hnb2 := Option.some.inj hnb
      subst hnb2
      rfl)

set_option maxRecDepth 100000 in
/-- The sample body, sanitized once and then once more. -/
theorem sanitize_twice_example :
    sanitizeRequest miniJson sampleBody =
        .ok { payload := some (sanitizePayload samplePayload), body := sampleForwarded } ∧
      sanitizeRequest miniJson sampleForwarded =
        .ok { payload := some (sanitizePayload samplePayload), body := sampleForwarded } :=
  ⟨rfl, rfl⟩

theorem sanitizePayload_frame (m : Object) :
    (∀ k, k ∉ overrideKeys → k ≠ "extra_params" → (sanitizePayload m).get k = m.get k) ∧
    (∀ q : Object, m.get "extra_params" = some (.obj q) →
      ∃ q2 : Object, (sanitizePayload m).get "extra_params" = some (.obj q2) ∧
        ∀ k, k ∉ overrideKeys → q2.get k = q.get k) ∧
    (asMap (m.get "extra_params") = none →
      (sanitizePayload m).get "extra_params" = m.get "extra_params") := by
  have hx : (applyOverrides m).get "extra_params" = m.get "extra_params" :=
    applyOverrides_get_of_not_mem m _ (by decide)
  rw [sanitizePayload_eq m, hx]
  refine ⟨fun k hk hne => ?_, fun q hq => ?_, fun hq => ?_⟩
  · cases asMap (m.get "extra_params") with
    | none => exact applyOverrides_get_of_not_mem m k hk
    | some q =>
      simp only
      rw [Object.get_set_of_ne _ _ _ _ hne]
      exact applyOverrides_get_of_not_mem m k hk
  · rw [hq]
    exact ⟨applyOverrides q, Object.get_set_self _ _ _,
      fun k hk => applyOverrides_get_of_not_mem q k hk⟩
  · rw [hq]
    exact hx

/-- C6, as the code has it: for every inbound body that `json.Unmarshal` decodes to an object
`m` (numbers as `float64`), the payload the sanitizer builds (the one whose serialization is
forwarded) agrees with `m` at every key other than the five override keys and `extra_params` (a
key that is absent stays absent); an `extra_params` mapping stays a mapping that agrees with the
one of `m` at every key other than the five; and an `extra_params` that is absent or not a
mapping is left as it is. -/
theorem sanitize_frame (J : Json) (body : String) (m : Object)
    (h : J.parse body = some (.obj m)) :
    ∃ s p, sanitizeRequest J body = .ok s ∧ s.payload = some p ∧
      (∀ nb, J.marshal (.obj p) = some nb → s.body = nb) ∧
      (∀ k, k ∉ overrideKeys → k ≠ "extra_params" → p.get k = m.get k) ∧
      (∀ q : Object, m.get "extra_params" = some (.obj q) →
        ∃ q2 : Object, p.get "extra_params" = some (.obj q2) ∧
          ∀ k, k ∉ overrideKeys → q2.get k = q.get k) ∧
      (asMap (m.get "extra_params") = none → p.get "extra_params" = m.get "extra_params") :=
  ⟨_, _, sanitizeRequest_obj J body m h, rfl, fun nb hnb => by simp [hnb],
    sanitizePayload_frame m⟩

theorem sanitize_frame_witness :
    ∃ s p, sanitizeRequest miniJson sampleBody = .ok s ∧ s.payload = some p ∧
      (∀ nb, miniJson.marshal (.obj p) = some nb → s.body = nb) ∧
      (∀ k, k ∉ overrideKeys → k ≠ "extra_params" → p.get k = samplePayload.get k) ∧
      (∀ q : Object, samplePayload.get "extra_params" = some (.obj q) →
        ∃ q2 : Object, p.get "extra_params" = some (.obj q2) ∧
          ∀ k, k ∉ overrideKeys → q2.get k = q.get k) ∧
      (asMap (samplePayload.get "extra_params") = none →
        p.get "extra_params" = samplePayload.get "extra_params") :=
  sanitize_frame miniJson sampleBody samplePayload rfl

theorem excessBits_small (fuel n : Nat) (h : n < 2 ^ 53) : Mini.excessBits fuel n = 0 := by
  cases fuel with
  | zero => rfl
  | succ f => exact if_pos h

/-- An integer below `2^53` is a `float64`: the reader stores it as written. -/
theorem float64Num_small (n : Nat) (h : n < 2 ^ 53) : Mini.float64Num n = some n := by
  have h0 : Mini.excessBits 1100 n = 0 := excessBits_small _ n h
  simp only [Mini.float64Num, h0, pow_zero, Nat.div_one, Nat.mod_one, Nat.mul_one]
  simp [h0]

/-- The integer `2^53 + 1` is stored as `2^53`. -/
theorem float64Num_example : Mini.float64Num 9007199254740993 = some 9007199254740992 := by
  decide

set_option maxRecDepth 100000 in
/-- C6, the claim as stated fails: in the body `bigSeedBody` the caller writes `2^53 + 1` at
`seed`, which is none of the five keys, and the body the sanitizer forwards is `bigSeedForwarded`,
which carries `2^53` at `seed`. -/
theorem sanitize_number_counterexample :
    (∃ m : Object, denotation bigSeedBody = some (.obj m) ∧
      m.get "seed" = some (.num 9007199254740993)) ∧
    (∃ s, sanitizeRequest miniJson bigSeedBody = .ok s ∧ s.body = bigSeedForwarded) ∧
    (∃ m : Object, denotation bigSeedForwarded = some (.obj m) ∧
      m.get "seed" = some (.num 9007199254740992)) ∧
    Value.num 9007199254740993 ≠ Value.num 9007199254740992 :=
  ⟨⟨_, rfl, rfl⟩, ⟨_, rfl, rfl⟩, ⟨_, rfl, rfl⟩,
    fun h => absurd (Value.num.inj h) (by norm_num)⟩

theorem newRequest_body (parseURL : String → Bool) (getenv : String → String)
    (body : String) (req : Request) (h : newRequest parseURL getenv body = some req) :
    req.body = body := by
  unfold newRequest at h
  by_cases hp : parseURL (qhaiBase getenv ++ "/chat/completions") = true
  · rw [if_pos hp] at h
    cases h
    rfl
  · rw [if_neg hp] at h
    cases h

/-- The run of `handleChat` on a request that passes the sanitizer and is built. -/
theorem handleChat_of_request (W : World) (body : String) (s : Sanitized) (req : Request)
    (hs : sanitizeRequest W.json body = .ok s)
    (hreq : newRequest W.parseURL W.getenv s.body = some req) :
    handleChat W body =
      match (runLoop W.conv (W.send req) (envOrInt W.getenv "SHIM_RETRY" 2)).err with
      | some e =>
        .ok { request := req,
              trace := (runLoop W.conv (W.send req) (envOrInt W.getenv "SHIM_RETRY" 2)).trace,
              reply :=
                writeChoices W.now W.idNow 200 [("content", .str ("Upstream error: " ++ e))] }
      | none =>
        match (runLoop W.conv (W.send req) (envOrInt W.getenv "SHIM_RETRY" 2)).resp with
        | none => .error .nilDeref
        | some resp =>
          .ok { request := req,
                trace := (runLoop W.conv (W.send req) (envOrInt W.getenv "SHIM_RETRY" 2)).trace,
                reply := normalize W.json W.now W.idNow resp } := by
  simp only [handleChat, hs, hreq]

/-- With a URL that does not parse, `handleChat` panics on every request that passes the
sanitizer, before any call is made. -/
theorem handleChat_nil_request (W : World) (body : String) (s : Sanitized)
    (hs : sanitizeRequest W.json body = .ok s)
    (hurl : W.parseURL (qhaiBase W.getenv ++ "/chat/completions") = false) :
    handleChat W body = .error .nilDeref := by
  have hreq : newRequest W.parseURL W.getenv s.body = none := by simp [newRequest, hurl]
  simp only [handleChat, hs, hreq]

/-- A line feed in `QHAI_BASE`: the request is nil and the handler panics. -/
theorem bad_base_example : handleChat badBaseWorld "hello" = .error .nilDeref := rfl

/-- What an answer of `handleChat` tells: the request passed the sanitizer and was built, and the
reply is the one for the state the loop ended in. -/
theorem handleChat_ok_inv (W : World) (body : String) (o : Outcome)
    (h : handleChat W body = .ok o) :
    ∃ s, sanitizeRequest W.json body = .ok s ∧
      newRequest W.parseURL W.getenv s.body = some o.request ∧
      o.trace = (runLoop W.conv (W.send o.request) (envOrInt W.getenv "SHIM_RETRY" 2)).trace ∧
      ((∃ e, (runLoop W.conv (W.send o.request) (envOrInt W.getenv "SHIM_RETRY" 2)).err =
            some e ∧
          o.reply = writeChoices W.now W.idNow 200 [("content", .str ("Upstream error: " ++ e))]) ∨
        ((runLoop W.conv (W.send o.request) (envOrInt W.getenv "SHIM_RETRY" 2)).err = none ∧
          ∃ resp, (runLoop W.conv (W.send o.request) (envOrInt W.getenv "SHIM_RETRY" 2)).resp =
              some resp ∧
            o.reply = normalize W.json W.now W.idNow resp)) := by
  cases hs : sanitizeRequest W.json body with
  | error f => simp [handleChat, hs] at h
  | ok s =>
    cases hreq : newRequest W.parseURL W.getenv s.body with
    | none => simp [handleChat, hs, hreq] at h
    | some req =>
      rw [handleChat_of_request W body s req hs hreq] at h
      cases herr : (runLoop W.conv (W.send req) (envOrInt W.getenv "SHIM_RETRY" 2)).err with
      | some e =>
        rw [herr] at h
        cases h
        exact ⟨s, rfl, hreq, rfl, Or.inl ⟨e, herr, rfl⟩⟩
      | none =>
        rw [herr] at h
        cases hresp : (runLoop W.conv (W.send req) (envOrInt W.getenv "SHIM_RETRY" 2)).resp with
        | none =>
          rw [hresp] at h
          cases h
        | some resp =>
          rw [hresp] at h
          cases h
          exact ⟨s, rfl, hreq, rfl, Or.inr ⟨herr, resp, hresp, rfl⟩⟩

theorem handleChat_request (W : World) (body : String) (o : Outcome)
    (h : handleChat W body = .ok o) :
    ∃ s, sanitizeRequest W.json body = .ok s ∧
      newRequest W.parseURL W.getenv s.body = some o.request := by
  obtain ⟨s, hs, hreq, _⟩ := handleChat_ok_inv W body o h
  exact ⟨s, hs, hreq⟩

/-- C7: for every inbound body that does not decode as a JSON object (text that is not JSON, or
a JSON boolean, number, string or array), the sanitizer signals no error and leaves the body as it
is, and the request `handleChat` sends carries exactly the original body. -/
theorem sanitize_unparsed_forwarded (W : World) (body : String)
    (h : W.json.parse body = none ∨ (∃ b, W.json.parse body = some (.bool b)) ∨
      (∃ q, W.json.parse body = some (.num q)) ∨ (∃ s, W.json.parse body = some (.str s)) ∨
      (∃ xs, W.json.parse body = some (.arr xs))) :
    sanitizeRequest W.json body = .ok { payload := none, body := body } ∧
      ∀ o, handleChat W body = .ok o →
        newRequest W.parseURL W.getenv body = some o.request ∧ o.request.body = body := by
  have hs := sanitizeRequest_unparsed W.json body (unmarshalMap_error W.json body h)
  refine ⟨hs, fun o ho => ?_⟩
  obtain ⟨s, hs2, hreq⟩ := handleChat_request W body o ho
  rw [hs] at hs2
  cases hs2
  exact ⟨hreq, newRequest_body _ _ _ _ hreq⟩


theorem sanitize_unparsed_forwarded_witness :
    sanitizeRequest refusedWorld.json "[1, 2]" = .ok { payload := none, body := "[1, 2]" } ∧
      ∀ o, handleChat refusedWorld "[1, 2]" = .ok o →
        newRequest refusedWorld.parseURL refusedWorld.getenv "[1, 2]" = some o.request ∧
          o.request.body = "[1, 2]" :=
  sanitize_unparsed_forwarded refusedWorld "[1, 2]"
    (Or.inr (Or.inr (Or.inr (Or.inr ⟨[.num 1, .num 2], rfl⟩))))

/-- C8, at the failing input: the body `null` decodes without error to the nil map, and the first
assignment of the sanitizer panics, so no body is forwarded and `handleChat` writes no reply. -/
theorem sanitize_null_panics :
    unmarshalMap miniJson "null" = .ok none ∧
      sanitizeRequest miniJson "null" = .error .nilMapAssign ∧
      ∀ outcome, handleChat (constWorld outcome) "null" = .error .nilMapAssign :=
  ⟨rfl, rfl, fun _ => rfl⟩


/-! ## Backoff and the retry loop -/

theorem wrapInt64_of_range (x : Int) (h0 : -(2 : Int) ^ 63 ≤ x) (h1 : x < (2 : Int) ^ 63) :
    wrapInt64 x = x := by
  unfold wrapInt64
  omega

/-- Up to attempt 34 the backoff is exactly `500 * 2^attempt` milliseconds. -/
theorem backoff_exact (conv : Nat → Int) (i : Nat) (h : i ≤ 34) :
    backoff conv i = 500 * 2 ^ i * 1000000 := by
  have hp : 2 ^ i ≤ 2 ^ 34 := Nat.pow_le_pow_right (by norm_num) h
  have hp2 : (2 : Int) ^ i ≤ 2 ^ 34 := by exact_mod_cast hp
  have hp3 : (0 : Int) < 2 ^ i := by positivity
  have hlt : 500 * 2 ^ i < 2 ^ 63 := by omega
  unfold backoff
  simp only [hlt, if_true]
  rw [wrapInt64_of_range]
  · push_cast; ring
  · push_cast; omega
  · push_cast; omega

/-- Up to attempt 54 the backoff is the `int64` product of `500 * 2^attempt` and
`time.Millisecond`. -/
theorem backoff_wrapped (conv : Nat → Int) (i : Nat) (h : i ≤ 54) :
    backoff conv i = wrapInt64 (500 * 2 ^ i * 1000000) := by
  have hp : 2 ^ i ≤ 2 ^ 54 := Nat.pow_le_pow_right (by norm_num) h
  have hlt : 500 * 2 ^ i < 2 ^ 63 := by omega
  unfold backoff
  simp only [hlt, if_true]
  push_cast
  rfl

/-- From attempt 35 on the product with `time.Millisecond` no longer fits an `int64`. -/
theorem backoff_35 (conv : Nat → Int) : backoff conv 35 = -1266874889709551616 := by
  have hlt : 500 * 2 ^ 35 < 2 ^ 63 := by norm_num
  unfold backoff
  simp only [hlt, if_true]
  decide

theorem retryTrace_attempts (conv : Nat → Int) (k : Nat) : attempts (retryTrace conv k) = k + 1 := by
  unfold retryTrace attempts
  induction k with
  | zero => simp
  | succ n ih =>
    simp only [List.range_succ, List.flatMap_append, List.filter_append, List.length_append] at ih ⊢
    simp at ih ⊢
    omega

theorem retryTrace_sleeps (conv : Nat → Int) (k : Nat) :
    sleeps (retryTrace conv k) = (List.range k).map (backoff conv) := by
  unfold retryTrace sleeps
  induction k with
  | zero => simp
  | succ n ih =>
    simp only [List.range_succ, List.flatMap_append, List.filterMap_append, List.map_append] at ih ⊢
    simp at ih ⊢
    exact ih


theorem retryLoop_succ (conv : Nat → Int) (send : Nat → Except String Response) (retry : Int)
    (fuel attempt : Nat) (st : LoopState) :
    retryLoop conv send retry (fuel + 1) attempt st =
      if (attempt : Int) ≤ retry then
        match send attempt with
        | .ok r => { resp := some r, err := none, trace := st.trace ++ [.call attempt] }
        | .error e =>
          retryLoop conv send retry fuel (attempt + 1)
            { resp := none, err := some e,
              trace :=
                if (attempt : Int) < retry then
                  st.trace ++ [.call attempt, .sleep (backoff conv attempt)]
                else st.trace ++ [.call attempt] }
      else st := rfl

/-- Once the counter is past `retry` the loop is over. -/
theorem retryLoop_done (conv : Nat → Int) (send : Nat → Except String Response) (retry : Int)
    (fuel attempt : Nat) (st : LoopState) (h : retry < (attempt : Int)) :
    retryLoop conv send retry fuel attempt st = st := by
  cases fuel with
  | zero => rfl
  | succ f => rw [retryLoop_succ, if_neg (by omega)]

/-- The loop when the call with counter `attempt + n` is the first to receive a response. -/
theorem retryLoop_first_response (conv : Nat → Int) (send : Nat → Except String Response)
    (retry : Int) (r : Response) :
    ∀ (n fuel attempt : Nat) (st : LoopState), n < fuel → ((attempt + n : Nat) : Int) ≤ retry →
      send (attempt + n) = .ok r →
      (∀ j, attempt ≤ j → j < attempt + n → ∃ e, send j = .error e) →
      retryLoop conv send retry fuel attempt st =
        { resp := some r, err := none,
          trace := st.trace ++
            (List.range' attempt n).flatMap (fun i => [.call i, .sleep (backoff conv i)]) ++
            [.call (attempt + n)] } := by
  intro n
  induction n with
  | zero =>
    intro fuel attempt st hf hle hok _
    obtain ⟨f, rfl⟩ : ∃ f, fuel = f + 1 := ⟨fuel - 1, by omega⟩
    rw [retryLoop_succ, if_pos (by simpa using hle)]
    simp only [Nat.add_zero] at hok
    simp [hok]
  | succ n ih =>
    intro fuel attempt st hf hle hok hfail
    obtain ⟨f, rfl⟩ : ∃ f, fuel = f + 1 := ⟨fuel - 1, by omega⟩
    obtain ⟨e, he⟩ := hfail attempt (le_refl _) (by omega)
    have hlt : (attempt : Int) < retry := by push_cast at hle; omega
    rw [retryLoop_succ, if_pos (le_of_lt hlt), he]
    simp only [hlt, if_true]
    have hidx : attempt + 1 + n = attempt + (n + 1) := by omega
    rw [ih f (attempt + 1) _ (by omega) (by rw [hidx]; exact hle) (by rw [hidx]; exact hok)
      (fun j h1 h2 => hfail j (by omega) (by omega))]
    simp [List.range'_succ, hidx]

/-- The loop when every call from counter `attempt` up to `retry = attempt + n` fails. -/
theorem retryLoop_all_fail (conv : Nat → Int) (send : Nat → Except String Response)
    (retry : Int) (errs : Nat → String) :
    ∀ (n fuel attempt : Nat) (st : LoopState), n < fuel → ((attempt + n : Nat) : Int) = retry →
      (∀ j, attempt ≤ j → j ≤ attempt + n → send j = .error (errs j)) →
      retryLoop conv send retry fuel attempt st =
        { resp := none, err := some (errs (attempt + n)),
          trace := st.trace ++
            (List.range' attempt n).flatMap (fun i => [.call i, .sleep (backoff conv i)]) ++
            [.call (attempt + n)] } := by
  intro n
  induction n with
  | zero =>
    intro fuel attempt st hf heq hfail
    obtain ⟨f, rfl⟩ : ∃ f, fuel = f + 1 := ⟨fuel - 1, by omega⟩
    have h0 : (attempt : Int) = retry := by simpa using heq
    rw [retryLoop_succ, if_pos (le_of_eq h0), hfail attempt (le_refl _) (by omega)]
    simp only [h0, lt_self_iff_false, if_false]
    rw [retryLoop_done _ _ _ _ _ _ (by push_cast; omega)]
    simp
  | succ n ih =>
    intro fuel attempt st hf heq hfail
    obtain ⟨f, rfl⟩ : ∃ f, fuel = f + 1 := ⟨fuel - 1, by omega⟩
    have hlt : (attempt : Int) < retry := by push_cast at heq; omega
    rw [retryLoop_succ, if_pos (le_of_lt hlt), hfail attempt (le_refl _) (by omega)]
    simp only [hlt, if_true]
    have hidx : attempt + 1 + n = attempt + (n + 1) := by omega
    rw [ih f (attempt + 1) _ (by omega) (by rw [hidx]; exact heq)
      (fun j h1 h2 => hfail j (by omega) (by omega))]
    simp [List.range'_succ, hidx]

/-- The loop makes at most as many calls as it has iterations. -/
theorem retryLoop_attempts_le (conv : Nat → Int) (send : Nat → Except String Response)
    (retry : Int) :
    ∀ (fuel attempt : Nat) (st : LoopState),
      attempts (retryLoop conv send retry fuel attempt st).trace ≤ attempts st.trace + fuel := by
  intro fuel
  induction fuel with
  | zero => intro attempt st; simp [retryLoop]
  | succ f ih =>
    intro attempt st
    rw [retryLoop_succ]
    by_cases h1 : (attempt : Int) ≤ retry
    · rw [if_pos h1]
      cases hs : send attempt with
      | ok r => simp [attempts, List.filter_append]
      | error e =>
        simp only
        refine le_trans (ih _ _) ?_
        by_cases h2 : (attempt : Int) < retry
        · simp [h2, attempts, List.filter_append]; omega
        · simp [h2, attempts, List.filter_append]; omega
    · rw [if_neg h1]; omega

/-- The bound on the iterations in `runLoop` is never what ends the loop: a larger one gives the
same result. -/
theorem retryLoop_fuel (conv : Nat → Int) (send : Nat → Except String Response) (retry : Int) :
    ∀ (fuel attempt : Nat) (st : LoopState), (retry + 1 - attempt).toNat ≤ fuel →
      retryLoop conv send retry (fuel + 1) attempt st =
        retryLoop conv send retry fuel attempt st := by
  intro fuel
  induction fuel with
  | zero =>
    intro attempt st h
    rw [retryLoop_done _ _ _ _ _ _ (by omega), retryLoop_done _ _ _ _ _ _ (by omega)]
  | succ f ih =>
    intro attempt st h
    rw [retryLoop_succ, retryLoop_succ conv send retry f]
    by_cases h1 : (attempt : Int) ≤ retry
    · rw [if_pos h1, if_pos h1]
      cases hs : send attempt with
      | ok r => rfl
      | error e => exact ih _ _ (by push_cast; omega)
    · rw [if_neg h1, if_neg h1]


theorem runLoop_first_response (conv : Nat → Int) (send : Nat → Except String Response)
    (retry : Int) (k : Nat) (r : Response) (hk : (k : Int) ≤ retry) (hok : send k = .ok r)
    (hfail : ∀ j, j < k → ∃ e, send j = .error e) :
    runLoop conv send retry = { resp := some r, err := none, trace := retryTrace conv k } := by
  unfold runLoop
  rw [retryLoop_first_response conv send retry r k (retry + 1).toNat 0 LoopState.init
    (by omega) (by simpa using hk) (by simpa using hok)
    (fun j _ h2 => hfail j (by omega))]
  simp [retryTrace, LoopState.init, List.range_eq_range']

theorem runLoop_all_fail (conv : Nat → Int) (send : Nat → Except String Response)
    (N : Nat) (errs : Nat → String) (hfail : ∀ k, k ≤ N → send k = .error (errs k)) :
    runLoop conv send N = { resp := none, err := some (errs N), trace := retryTrace conv N } := by
  unfold runLoop
  rw [retryLoop_all_fail conv send N errs N ((N : Int) + 1).toNat 0 LoopState.init
    (by omega) (by simp) (fun j _ h2 => hfail j (by omega))]
  simp [retryTrace, LoopState.init, List.range_eq_range']

theorem retryTrace_getLast (conv : Nat → Int) (k : Nat) :
    (retryTrace conv k).getLast? = some (.call k) := by
  simp [retryTrace]

/-- C4: for every retry count `N` and every sequence `send` of attempt outcomes, the loop makes at
most `N + 1` calls; and if the call with counter `k ≤ N` is the first to receive a response `r`
(of any status), the loop ends holding `r` and no error, after exactly `k + 1` calls and `k`
sleeps, the call that received `r` being its last effect. -/
theorem retry_stops_at_first_response (conv : Nat → Int) (send : Nat → Except String Response)
    (N : Nat) :
    attempts (runLoop conv send N).trace ≤ N + 1 ∧
    ∀ (k : Nat) (r : Response), k ≤ N → send k = .ok r →
      (∀ j, j < k → ∃ e, send j = .error e) →
      (runLoop conv send N).resp = some r ∧ (runLoop conv send N).err = none ∧
      (runLoop conv send N).trace = retryTrace conv k ∧
      attempts (runLoop conv send N).trace = k + 1 ∧
      sleeps (runLoop conv send N).trace = (List.range k).map (backoff conv) ∧
      (runLoop conv send N).trace.getLast? = some (.call k) := by
  constructor
  · have h := retryLoop_attempts_le conv send N ((N : Int) + 1).toNat 0 LoopState.init
    have h2 : ((N : Int) + 1).toNat = N + 1 := by omega
    rw [h2] at h
    simpa [runLoop, LoopState.init, attempts, h2] using h
  · intro k r hk hok hfail
    rw [runLoop_first_response conv send N k r (by exact_mod_cast hk) hok hfail]
    exact ⟨rfl, rfl, rfl, retryTrace_attempts conv k, retryTrace_sleeps conv k,
      retryTrace_getLast conv k⟩

theorem retry_stops_at_first_response_witness :
    (runLoop (fun _ => 0) thirdTimeLucky 5).resp = some sampleResponse ∧
    (runLoop (fun _ => 0) thirdTimeLucky 5).err = none ∧
    (runLoop (fun _ => 0) thirdTimeLucky 5).trace = retryTrace (fun _ => 0) 2 ∧
    attempts (runLoop (fun _ => 0) thirdTimeLucky 5).trace = 2 + 1 ∧
    sleeps (runLoop (fun _ => 0) thirdTimeLucky 5).trace =
      (List.range 2).map (backoff (fun _ => 0)) ∧
    (runLoop (fun _ => 0) thirdTimeLucky 5).trace.getLast? = some (.call 2) :=
  (retry_stops_at_first_response (fun _ => 0) thirdTimeLucky 5).2 2 sampleResponse (by decide)
    rfl (fun j hj => ⟨"timeout", by simp [thirdTimeLucky, hj]⟩)


theorem writeChoices_content (now idNow : Time) (code : Int) (s : String) :
    (writeChoices now idNow code [("content", .str s)]).content = some (.str s) := by
  simp [writeChoices, writeJSON, Reply.content, Object.get]

/-- C3: for every retry count `N`, when all `N + 1` calls of `client.Do` fail (so the request
`req` passed the sanitizer and was built, and each call with it returned an error), `handleChat`
makes the `N + 1` calls with a sleep after each but the last, so exactly `N` sleeps, the `i`-th of
`backoff(i)` nanoseconds. That is `500 * 2^i` milliseconds as an `int64` count of nanoseconds:
the wrapped product for `i ≤ 54`, which for `i ≤ 34` is the exact one. The reply has status 200
and the content `"Upstream error: "` followed by the text of the last error. -/
theorem all_attempts_fail (W : World) (body : String) (s : Sanitized) (req : Request) (N : Nat)
    (errs : Nat → String)
    (hs : sanitizeRequest W.json body = .ok s)
    (hreq : newRequest W.parseURL W.getenv s.body = some req)
    (hN : envOrInt W.getenv "SHIM_RETRY" 2 = N)
    (hfail : ∀ k, k ≤ N → W.send req k = .error (errs k)) :
    ∃ o, handleChat W body = .ok o ∧
      o.request = req ∧
      o.trace = retryTrace W.conv N ∧
      attempts o.trace = N + 1 ∧
      (sleeps o.trace).length = N ∧
      sleeps o.trace = (List.range N).map (backoff W.conv) ∧
      (∀ i, i < N → i ≤ 54 → (sleeps o.trace)[i]? = some (wrapInt64 (500 * 2 ^ i * 1000000))) ∧
      (∀ i, i < N → i ≤ 34 → (sleeps o.trace)[i]? = some (500 * 2 ^ i * 1000000)) ∧
      o.reply = writeChoices W.now W.idNow 200 [("content", .str ("Upstream error: " ++ errs N))] ∧
      o.reply.code = 200 ∧
      o.reply.content = some (.str ("Upstream error: " ++ errs N)) := by
  have hloop := runLoop_all_fail W.conv (W.send req) N errs hfail
  refine ⟨{ request := req, trace := retryTrace W.conv N,
            reply := writeChoices W.now W.idNow 200
              [("content", .str ("Upstream error: " ++ errs N))] }, ?_, rfl, rfl,
    retryTrace_attempts _ _, ?_, retryTrace_sleeps _ _, ?_, ?_, rfl, rfl,
    writeChoices_content _ _ _ _⟩
  · rw [handleChat_of_request W body s req hs hreq, hN, hloop]
  · simp [retryTrace_sleeps]
  · intro i hi h54
    simp only [retryTrace_sleeps]
    simp [List.getElem?_map, List.getElem?_range hi, backoff_wrapped W.conv i h54]
  · intro i hi h34
    simp only [retryTrace_sleeps]
    simp [List.getElem?_map, List.getElem?_range hi, backoff_exact W.conv i h34]

theorem all_attempts_fail_witness :
    ∃ o, handleChat refusedWorld "hello" = .ok o ∧
      o.request = sampleRequest "hello" ∧
      o.trace = retryTrace refusedWorld.conv 2 ∧
      attempts o.trace = 2 + 1 ∧
      (sleeps o.trace).length = 2 ∧
      sleeps o.trace = (List.range 2).map (backoff refusedWorld.conv) ∧
      (∀ i, i < 2 → i ≤ 54 → (sleeps o.trace)[i]? = some (wrapInt64 (500 * 2 ^ i * 1000000))) ∧
      (∀ i, i < 2 → i ≤ 34 → (sleeps o.trace)[i]? = some (500 * 2 ^ i * 1000000)) ∧
      o.reply = writeChoices refusedWorld.now refusedWorld.idNow 200
        [("content", .str ("Upstream error: " ++ "connection refused"))] ∧
      o.reply.code = 200 ∧
      o.reply.content = some (.str ("Upstream error: " ++ "connection refused")) :=
  all_attempts_fail refusedWorld "hello" { payload := none, body := "hello" }
    (sampleRequest "hello") 2 (fun _ => "connection refused") rfl rfl rfl (fun _ _ => rfl)


/-! ## Response normalizer -/

theorem length_eq_zero_iff (s : String) : s.length = 0 ↔ s = "" := by
  constructor
  · intro h
    exact String.ext (List.length_eq_zero.mp h)
  · rintro rfl
    rfl

theorem unmarshalMap_ok_some (J : Json) (data : String) (m : Object)
    (h : unmarshalMap J data = .ok (some m)) : J.parse data = some (.obj m) := by
  unfold unmarshalMap at h
  split at h <;> simp_all

theorem normalize_empty (J : Json) (now idNow : Time) (resp : Response) (h : resp.body = "") :
    normalize J now idNow resp =
      writeChoices now idNow 200
        [("content", .str ("Upstream returned empty response (status " ++ resp.status ++ ")"))] := by
  simp [normalize, h]

theorem normalize_nonjson (J : Json) (now idNow : Time) (resp : Response)
    (hne : resp.body ≠ "") (h : ∃ e, unmarshalMap J resp.body = .error e) :
    normalize J now idNow resp = writeChoices now idNow 200 [("content", .str resp.body)] := by
  obtain ⟨e, h⟩ := h
  have hl : ¬ resp.body.length = 0 := fun hl => hne ((length_eq_zero_iff _).mp hl)
  simp [normalize, hl, h]

theorem normalize_passthrough (J : Json) (now idNow : Time) (resp : Response) (jr : Object)
    (first : Value) (rest : List Value) (hne : resp.body ≠ "")
    (hp : J.parse resp.body = some (.obj jr))
    (hc : jr.get "choices" = some (.arr (first :: rest))) :
    normalize J now idNow resp =
      writeJSON resp.statusCode (.obj (patchChoices jr first rest resp.body)) := by
  have hl : ¬ resp.body.length = 0 := fun hl => hne ((length_eq_zero_iff _).mp hl)
  simp [normalize, hl, unmarshalMap_obj J _ jr hp, hc, asSlice]

/-- The reply for a decoded body without a non-empty `choices` sequence: lines 131-154. -/
theorem normalize_other (J : Json) (now idNow : Time) (resp : Response) (decoded : Option Object)
    (hne : resp.body ≠ "") (hp : unmarshalMap J resp.body = .ok decoded)
    (hc : ∀ first rest, (decoded.getD []).get "choices" ≠ some (.arr (first :: rest))) :
    normalize J now idNow resp =
      match getString (decoded.getD []) "output_text" with
      | some s =>
        if !isBlank s then writeChoices now idNow 200 [("content", .str s)]
        else normalizeRest now idNow (decoded.getD []) resp.body
      | none => normalizeRest now idNow (decoded.getD []) resp.body := by
  have hl : ¬ resp.body.length = 0 := fun hl => hne ((length_eq_zero_iff _).mp hl)
  simp only [normalize, hl, if_false, hp]
  split
  · next first rest heq =>
    exact absurd ((asSlice_eq_some _ _).mp heq) (hc first rest)
  · rfl


theorem isBlank_iff (s : String) : isBlank s = true ↔ trimSpace s = "" := by
  simp [isBlank]

theorem patchChoices_blank (jr f msg : Object) (rest : List Value) (raw c : String)
    (hm : f.get "message" = some (.obj msg)) (hcont : msg.get "content" = some (.str c))
    (hb : trimSpace c = "") :
    patchChoices jr (.obj f) rest raw =
      jr.set "choices"
        (.arr (.obj (f.set "message" (.obj (msg.set "content" (.str raw)))) :: rest)) := by
  simp [patchChoices, asMap, hm, getString, hcont, (isBlank_iff c).mpr hb]

theorem patchChoices_other (jr : Object) (first : Value) (rest : List Value) (raw : String)
    (h : ¬ ∃ (f msg : Object) (c : String), first = .obj f ∧ f.get "message" = some (.obj msg) ∧
      msg.get "content" = some (.str c) ∧ trimSpace c = "") :
    patchChoices jr first rest raw = jr := by
  unfold patchChoices
  split
  · next f hf =>
    split
    · next msg hmsg =>
      split
      · next c hc =>
        split_ifs with hb
        · exact absurd ⟨f, msg, c, by simpa [asMap_eq_some] using hf,
            (asMap_eq_some _ _).mp hmsg, (getString_eq_some _ _ _).mp hc,
            (isBlank_iff c).mp hb⟩ h
        · rfl
      · rfl
    · rfl
  · rfl

/-- C9: for every non-empty upstream body that parses as a JSON object `jr` whose `choices` is the
sequence `first :: rest`, the reply carries the upstream status code and an object `jr2` which is
`jr` itself, except when `first` is a mapping whose `message` is a mapping whose `content` is a
string that trims to the empty string: then `choices[0].message.content` of `jr2` is the raw body
text, and `jr2` agrees with `jr` in the other choices, in the other fields of `choices[0]` and of
its `message`, and in the other top-level fields. -/
theorem passthrough_patch (J : Json) (now idNow : Time) (resp : Response) (jr : Object)
    (first : Value) (rest : List Value) (hne : resp.body ≠ "")
    (hp : J.parse resp.body = some (.obj jr))
    (hc : jr.get "choices" = some (.arr (first :: rest))) :
    ∃ jr2 : Object, normalize J now idNow resp = writeJSON resp.statusCode (.obj jr2) ∧
      (∀ (f msg : Object) (c : String), first = .obj f → f.get "message" = some (.obj msg) →
        msg.get "content" = some (.str c) → trimSpace c = "" →
        ∃ f2 msg2 : Object, jr2.get "choices" = some (.arr (.obj f2 :: rest)) ∧
          f2.get "message" = some (.obj msg2) ∧
          msg2.get "content" = some (.str resp.body) ∧
          (∀ k, k ≠ "content" → msg2.get k = msg.get k) ∧
          (∀ k, k ≠ "message" → f2.get k = f.get k) ∧
          (∀ k, k ≠ "choices" → jr2.get k = jr.get k)) ∧
      ((¬ ∃ (f msg : Object) (c : String), first = .obj f ∧ f.get "message" = some (.obj msg) ∧
          msg.get "content" = some (.str c) ∧ trimSpace c = "") → jr2 = jr) := by
  refine ⟨patchChoices jr first rest resp.body,
    normalize_passthrough J now idNow resp jr first rest hne hp hc, ?_, ?_⟩
  · intro f msg c hf hm hcont hb
    subst hf
    rw [patchChoices_blank jr f msg rest resp.body c hm hcont hb]
    exact ⟨_, _, Object.get_set_self _ _ _, Object.get_set_self _ _ _,
      Object.get_set_self _ _ _, fun k hk => Object.get_set_of_ne _ _ _ _ hk,
      fun k hk => Object.get_set_of_ne _ _ _ _ hk, fun k hk => Object.get_set_of_ne _ _ _ _ hk⟩
  · exact patchChoices_other jr first rest resp.body

theorem passthrough_patch_witness :
    ∃ jr2 : Object,
      normalize miniJson sampleTime sampleTime blankChoiceResponse =
        writeJSON blankChoiceResponse.statusCode (.obj jr2) ∧
      (∀ (f msg : Object) (c : String),
        Value.obj [("message", .obj [("content", .str "   ")])] = .obj f →
        f.get "message" = some (.obj msg) →
        msg.get "content" = some (.str c) → trimSpace c = "" →
        ∃ f2 msg2 : Object, jr2.get "choices" = some (.arr (.obj f2 :: [])) ∧
          f2.get "message" = some (.obj msg2) ∧
          msg2.get "content" = some (.str blankChoiceResponse.body) ∧
          (∀ k, k ≠ "content" → msg2.get k = msg.get k) ∧
          (∀ k, k ≠ "message" → f2.get k = f.get k) ∧
          (∀ k, k ≠ "choices" → jr2.get k =
            Object.get [("choices", .arr [.obj [("message", .obj [("content", .str "   ")])]])]
              k)) ∧
      ((¬ ∃ (f msg : Object) (c : String),
          Value.obj [("message", .obj [("content", .str "   ")])] = .obj f ∧
          f.get "message" = some (.obj msg) ∧
          msg.get "content" = some (.str c) ∧ trimSpace c = "") →
        jr2 = [("choices", .arr [.obj [("message", .obj [("content", .str "   ")])]])]) :=
  passthrough_patch miniJson sampleTime sampleTime blankChoiceResponse
    [("choices", .arr [.obj [("message", .obj [("content", .str "   ")])]])]
    (.obj [("message", .obj [("content", .str "   ")])]) [] (by decide) rfl rfl

/-- The spec's example: a blank content is replaced by the raw body text. -/
theorem blank_choice_example :
    normalize miniJson sampleTime sampleTime blankChoiceResponse =
      writeJSON 200
        (.obj [("choices",
          .arr [.obj [("message", .obj [("content", .str blankChoiceResponse.body)])]])]) := rfl


/-- C10: for every non-empty upstream body that parses as a JSON object `jr` without a non-empty
`choices` sequence and whose `output_text` is a string `s` that does not trim to the empty string,
the reply is the fresh envelope with status 200 whose content is `s`, untrimmed, whatever else
`jr` holds. -/
theorem output_text_wins (J : Json) (now idNow : Time) (resp : Response) (jr : Object)
    (s : String) (hne : resp.body ≠ "") (hp : J.parse resp.body = some (.obj jr))
    (hc : ∀ first rest, jr.get "choices" ≠ some (.arr (first :: rest)))
    (ho : jr.get "output_text" = some (.str s)) (hb : trimSpace s ≠ "") :
    normalize J now idNow resp = writeChoices now idNow 200 [("content", .str s)] ∧
      (normalize J now idNow resp).code = 200 ∧
      (normalize J now idNow resp).content = some (.str s) := by
  have hn : normalize J now idNow resp = writeChoices now idNow 200 [("content", .str s)] := by
    rw [normalize_other J now idNow resp (some jr) hne (unmarshalMap_obj J _ jr hp) hc]
    have hb2 : isBlank s = false := by
      cases h : isBlank s with
      | false => rfl
      | true => exact absurd ((isBlank_iff s).mp h) hb
    simp [(getString_eq_some _ _ _).mpr ho, hb2]
  rw [hn]
  exact ⟨rfl, rfl, writeChoices_content _ _ _ _⟩

theorem output_text_wins_witness :
    normalize miniJson sampleTime sampleTime outputTextResponse =
        writeChoices sampleTime sampleTime 200 [("content", .str "hi")] ∧
      (normalize miniJson sampleTime sampleTime outputTextResponse).code = 200 ∧
      (normalize miniJson sampleTime sampleTime outputTextResponse).content =
        some (.str "hi") :=
  output_text_wins miniJson sampleTime sampleTime outputTextResponse
    [("output_text", .str "hi"), ("text", .str "other")] "hi" (by decide) rfl
    (fun first rest h => by simp [Object.get] at h) rfl (by decide)

theorem normalizeRest_shape (now idNow : Time) (jr : Object) (raw : String) :
    ∃ s, normalizeRest now idNow jr raw = writeChoices now idNow 200 [("content", .str s)] := by
  unfold normalizeRest
  simp only
  split_ifs
  · exact ⟨_, rfl⟩
  · split
    · exact ⟨_, rfl⟩
    · exact ⟨_, rfl⟩

/-- Every reply of the normalizer is a fresh envelope around a string, or the upstream object
passed through. -/
theorem normalize_shape (J : Json) (now idNow : Time) (resp : Response) :
    (∃ s, normalize J now idNow resp = writeChoices now idNow 200 [("content", .str s)]) ∨
    (∃ (jr : Object) (first : Value) (rest : List Value), resp.body ≠ "" ∧
      J.parse resp.body = some (.obj jr) ∧ jr.get "choices" = some (.arr (first :: rest)) ∧
      normalize J now idNow resp =
        writeJSON resp.statusCode (.obj (patchChoices jr first rest resp.body))) := by
  by_cases hne : resp.body = ""
  · exact Or.inl ⟨_, normalize_empty J now idNow resp hne⟩
  · cases hu : unmarshalMap J resp.body with
    | error e => exact Or.inl ⟨_, normalize_nonjson J now idNow resp hne ⟨e, hu⟩⟩
    | ok decoded =>
      by_cases hc : ∃ first rest, (decoded.getD []).get "choices" = some (.arr (first :: rest))
      · obtain ⟨first, rest, hc⟩ := hc
        cases decoded with
        | none => simp [Object.get] at hc
        | some jr =>
          have hp := unmarshalMap_ok_some J _ jr hu
          exact Or.inr ⟨jr, first, rest, hne, hp, hc,
            normalize_passthrough J now idNow resp jr first rest hne hp hc⟩
      · left
        rw [normalize_other J now idNow resp decoded hne hu
          (fun first rest h => hc ⟨first, rest, h⟩)]
        split
        · split_ifs
          · exact ⟨_, rfl⟩
          · exact normalizeRest_shape _ _ _ _
        · exact normalizeRest_shape _ _ _ _

/-- The run of `handleChat` when the call with counter `k` is the first to receive a response:
the reply is the normalizer's, for that response. -/
theorem handleChat_received (W : World) (body : String) (s : Sanitized) (req : Request)
    (k : Nat) (r : Response) (hs : sanitizeRequest W.json body = .ok s)
    (hreq : newRequest W.parseURL W.getenv s.body = some req)
    (hk : (k : Int) ≤ envOrInt W.getenv "SHIM_RETRY" 2)
    (hok : W.send req k = .ok r)
    (hfail : ∀ j, j < k → ∃ e, W.send req j = .error e) :
    handleChat W body =
      .ok { request := req, trace := retryTrace W.conv k,
            reply := normalize W.json W.now W.idNow r } := by
  rw [handleChat_of_request W body s req hs hreq,
    runLoop_first_response W.conv _ _ k r hk hok hfail]

theorem joinAll_append (xs ys : List String) : joinAll (xs ++ ys) = joinAll xs ++ joinAll ys := by
  induction xs with
  | nil => simp [joinAll]
  | cons x xs ih => simp [joinAll, ih, String.append_assoc]

theorem appendPartsText_eq (b : String) (parts : List Value) :
    appendPartsText b parts = b ++ joinAll (parts.filterMap partText) := by
  unfold appendPartsText
  induction parts generalizing b with
  | nil => simp [joinAll]
  | cons p ps ih =>
    rw [List.foldl_cons, ih]
    cases hp : partText p with
    | none =>
      have : getString ((asMap (some p)).getD []) "text" = none := hp
      simp [List.filterMap_cons, hp, this]
    | some s =>
      have : getString ((asMap (some p)).getD []) "text" = some s := hp
      simp [List.filterMap_cons, hp, this, joinAll, String.append_assoc]

/-- The text `extractGeminiText` returns for a `candidates` sequence: the texts of the parts the
loop goes through, candidate by candidate. -/
theorem extractGeminiText_eq (j : Object) (cs : List Value)
    (h : j.get "candidates" = some (.arr cs)) :
    extractGeminiText j = concatTexts candidateParts cs := by
  have hfold : ∀ (cs : List Value) (b : String),
      cs.foldl (fun b c =>
        let cm := (asMap (some c)).getD []
        let content := (asMap (cm.get "content")).getD []
        let parts := (asSlice (content.get "parts")).getD []
        let parts := if parts.length = 0 then (asSlice (cm.get "parts")).getD [] else parts
        appendPartsText b parts) b = b ++ concatTexts candidateParts cs := by
    intro cs
    induction cs with
    | nil => intro b; simp [concatTexts, joinAll]
    | cons c cs ih =>
      intro b
      rw [List.foldl_cons, ih]
      simp only [concatTexts, List.flatMap_cons, joinAll_append]
      rw [← String.append_assoc]
      congr 1
      exact appendPartsText_eq b (candidateParts c)
  have hs : asSlice (some (Value.arr cs)) = some cs := rfl
  unfold extractGeminiText
  rw [h, hs]
  exact (hfold cs "").trans (by simp)

theorem contentParts_eq_some (c : Value) (ps : List Value) :
    contentParts c = some ps ↔
      ∃ cm content : Object, c = .obj cm ∧ cm.get "content" = some (.obj content) ∧
        content.get "parts" = some (.arr ps) := by
  constructor
  · intro h
    unfold contentParts at h
    rw [asSlice_eq_some] at h
    cases c with
    | obj cm =>
      have h2 : Object.get ((asMap (Object.get cm "content")).getD []) "parts" =
          some (.arr ps) := h
      cases hc : asMap (Object.get cm "content") with
      | none =>
        rw [hc] at h2
        simp [Object.get] at h2
      | some content =>
        rw [hc] at h2
        exact ⟨cm, content, rfl, (asMap_eq_some _ _).mp hc, h2⟩
    | null => simp [asMap, Object.get] at h
    | bool b => simp [asMap, Object.get] at h
    | num q => simp [asMap, Object.get] at h
    | str s => simp [asMap, Object.get] at h
    | arr xs => simp [asMap, Object.get] at h
  · rintro ⟨cm, content, rfl, h1, h2⟩
    simp [contentParts, asMap, h1, h2, asSlice]

/-- The reply for a decoded body without a non-empty `choices` sequence and without a non-blank
string at `output_text`: lines 136-154. -/
theorem normalize_no_output (J : Json) (now idNow : Time) (resp : Response)
    (decoded : Option Object) (hne : resp.body ≠ "")
    (hp : unmarshalMap J resp.body = .ok decoded)
    (hc : ∀ first rest, (decoded.getD []).get "choices" ≠ some (.arr (first :: rest)))
    (ho : ∀ s, (decoded.getD []).get "output_text" = some (.str s) → trimSpace s = "") :
    normalize J now idNow resp = normalizeRest now idNow (decoded.getD []) resp.body := by
  rw [normalize_other J now idNow resp decoded hne hp hc]
  cases hg : getString (decoded.getD []) "output_text" with
  | none => rfl
  | some s =>
    have hb : isBlank s = true := (isBlank_iff s).mpr (ho s ((getString_eq_some _ _ _).mp hg))
    simp [hb]

theorem normalizeRest_gemini (now idNow : Time) (jr : Object) (raw : String)
    (h : trimSpace (extractGeminiText jr) ≠ "") :
    normalizeRest now idNow jr raw =
      writeChoices now idNow 200 [("content", .str (extractGeminiText jr))] := by
  have hb : isBlank (extractGeminiText jr) = false := by
    cases hb : isBlank (extractGeminiText jr) with
    | false => rfl
    | true => exact absurd ((isBlank_iff _).mp hb) h
  simp [normalizeRest, hb]

/-- C11: for every JSON object `j` whose `candidates` is a sequence in which every candidate has a
non-empty sequence at `content.parts`, `extractGeminiText` returns the concatenation, with no
separator, of the string `text` of every part of every candidate, in candidate order and then part
order. And when that text is not blank, `j` is the decoded non-empty upstream body, and `j` has
neither a non-empty `choices` sequence nor a non-blank string at `output_text`, the reply is the
fresh envelope with status 200 whose content is that text, whatever `text`, `message` or `content`
fields `j` holds. -/
theorem gemini_text_concat (j : Object) (cs : List Value)
    (hcand : j.get "candidates" = some (.arr cs))
    (hparts : ∀ c, c ∈ cs → ∃ p ps, contentParts c = some (p :: ps)) :
    extractGeminiText j = concatTexts (fun c => (contentParts c).getD []) cs ∧
    ∀ (J : Json) (now idNow : Time) (resp : Response), resp.body ≠ "" →
      J.parse resp.body = some (.obj j) →
      (∀ first rest, j.get "choices" ≠ some (.arr (first :: rest))) →
      (∀ s, j.get "output_text" = some (.str s) → trimSpace s = "") →
      trimSpace (concatTexts (fun c => (contentParts c).getD []) cs) ≠ "" →
      normalize J now idNow resp =
          writeChoices now idNow 200
            [("content", .str (concatTexts (fun c => (contentParts c).getD []) cs))] ∧
        (normalize J now idNow resp).code = 200 ∧
        (normalize J now idNow resp).content =
          some (.str (concatTexts (fun c => (contentParts c).getD []) cs)) := by
  have htext : extractGeminiText j = concatTexts (fun c => (contentParts c).getD []) cs := by
    rw [extractGeminiText_eq j cs hcand]
    unfold concatTexts
    congr 1
    apply List.flatMap_congr
    intro c hc
    obtain ⟨p, ps, hcp⟩ := hparts c hc
    simp [candidateParts, hcp]
  refine ⟨htext, fun J now idNow resp hne hp hc ho hb => ?_⟩
  have hn : normalize J now idNow resp =
      writeChoices now idNow 200
        [("content", .str (concatTexts (fun c => (contentParts c).getD []) cs))] := by
    rw [normalize_no_output J now idNow resp (some j) hne (unmarshalMap_obj J _ j hp) hc ho]
    rw [← htext] at hb ⊢
    exact normalizeRest_gemini now idNow j resp.body hb
  rw [hn]
  exact ⟨rfl, rfl, writeChoices_content _ _ _ _⟩

theorem gemini_text_concat_witness :
    extractGeminiText geminiObject =
        concatTexts (fun c => (contentParts c).getD []) geminiCandidates ∧
    ∀ (J : Json) (now idNow : Time) (resp : Response), resp.body ≠ "" →
      J.parse resp.body = some (.obj geminiObject) →
      (∀ first rest, geminiObject.get "choices" ≠ some (.arr (first :: rest))) →
      (∀ s, geminiObject.get "output_text" = some (.str s) → trimSpace s = "") →
      trimSpace (concatTexts (fun c => (contentParts c).getD []) geminiCandidates) ≠ "" →
      normalize J now idNow resp =
          writeChoices now idNow 200
            [("content",
              .str (concatTexts (fun c => (contentParts c).getD []) geminiCandidates))] ∧
        (normalize J now idNow resp).code = 200 ∧
        (normalize J now idNow resp).content =
          some (.str (concatTexts (fun c => (contentParts c).getD []) geminiCandidates)) :=
  gemini_text_concat geminiObject geminiCandidates rfl (fun c hc => by
    simp only [geminiCandidates, List.mem_singleton] at hc
    subst hc
    exact ⟨_, _, rfl⟩)

/-- The Gemini example of the specification, end to end: the content is `"foobar"`. -/
theorem gemini_example :
    miniJson.parse geminiResponse.body = some (.obj geminiObject) ∧
      extractGeminiText geminiObject = "foobar" ∧
      concatTexts (fun c => (contentParts c).getD []) geminiCandidates = "foobar" ∧
      normalize miniJson sampleTime sampleTime geminiResponse =
        writeChoices sampleTime sampleTime 200 [("content", .str "foobar")] :=
  ⟨rfl, rfl, rfl, rfl⟩

/-- C12, as the code has it: the text of `extractGeminiText` is made of the parts
`candidateParts c` of each candidate `c`, and those are the elements of `content.parts` when that
is a non-empty sequence (the `parts` directly on the candidate then contribute nothing), and the
elements of the `parts` directly on the candidate when `content.parts` is absent, not a sequence,
or an empty sequence. -/
theorem candidate_parts_fallback (j : Object) (cs : List Value)
    (hcand : j.get "candidates" = some (.arr cs)) :
    extractGeminiText j = concatTexts candidateParts cs ∧
    ∀ c : Value,
      (∀ p ps, contentParts c = some (p :: ps) → candidateParts c = p :: ps) ∧
      (contentParts c = none ∨ contentParts c = some [] →
        candidateParts c = (directParts c).getD []) := by
  refine ⟨extractGeminiText_eq j cs hcand, fun c => ⟨fun p ps h => ?_, fun h => ?_⟩⟩
  · simp [candidateParts, h]
  · rcases h with h | h <;> simp [candidateParts, h]

theorem candidate_parts_fallback_witness :
    extractGeminiText emptyPartsObject = concatTexts candidateParts [emptyPartsCandidate] ∧
    ∀ c : Value,
      (∀ p ps, contentParts c = some (p :: ps) → candidateParts c = p :: ps) ∧
      (contentParts c = none ∨ contentParts c = some [] →
        candidateParts c = (directParts c).getD []) :=
  candidate_parts_fallback emptyPartsObject [emptyPartsCandidate] rfl

/-- C12, the claim as stated fails: a candidate whose `content.parts` is present as the empty
sequence contributes the text of the `parts` placed directly on it. -/
theorem empty_content_parts_counterexample :
    contentParts emptyPartsCandidate = some [] ∧
      directParts emptyPartsCandidate = some [.obj [("text", .str "x")]] ∧
      emptyPartsObject.get "candidates" = some (.arr [emptyPartsCandidate]) ∧
      extractGeminiText emptyPartsObject = "x" :=
  ⟨rfl, rfl, rfl, rfl⟩

/-! ## The generic field probe and the fallback -/

theorem probeKey_eq (jr : Object) (k : String) :
    probeKey jr k = firstNonBlank [getString jr k, nestedContent jr k] := by
  unfold probeKey nestedContent
  cases h1 : getString jr k with
  | none =>
    cases h2 : asMap (jr.get k) with
    | none => simp [firstNonBlank]
    | some m =>
      cases h3 : getString m "content" with
      | none => simp [firstNonBlank, h3]
      | some s => cases hb : isBlank s <;> simp [firstNonBlank, h3, hb]
  | some t =>
    cases hbt : isBlank t with
    | false => simp [firstNonBlank, hbt]
    | true =>
      cases h2 : asMap (jr.get k) with
      | none => simp [firstNonBlank, hbt]
      | some m =>
        cases h3 : getString m "content" with
        | none => simp [firstNonBlank, h3, hbt]
        | some s => cases hb : isBlank s <;> simp [firstNonBlank, h3, hb, hbt]

theorem firstNonBlank_append (xs ys : List (Option String)) :
    firstNonBlank (xs ++ ys) =
      match firstNonBlank xs with
      | some s => some s
      | none => firstNonBlank ys := by
  induction xs with
  | nil => simp [firstNonBlank]
  | cons x xs ih =>
    cases x with
    | none => simpa [firstNonBlank] using ih
    | some s =>
      cases hb : isBlank s with
      | false => simp [firstNonBlank, hb]
      | true => simpa [firstNonBlank, hb] using ih

/-- The loop of lines 140-151 returns with the first non-blank hit of the probe sequence. -/
theorem probeFields_eq (jr : Object) :
    probeFields jr ["text", "message", "content"] = firstNonBlank (probeSequence jr) := by
  have h : probeSequence jr =
      [getString jr "text", nestedContent jr "text"] ++
        ([getString jr "message", nestedContent jr "message"] ++
          [getString jr "content", nestedContent jr "content"]) := rfl
  rw [h, firstNonBlank_append, firstNonBlank_append]
  simp only [probeFields, probeKey_eq]
  cases firstNonBlank [getString jr "text", nestedContent jr "text"] with
  | some s => rfl
  | none =>
    cases firstNonBlank [getString jr "message", nestedContent jr "message"] with
    | some s => rfl
    | none =>
      cases firstNonBlank [getString jr "content", nestedContent jr "content"] <;> rfl

theorem normalizeRest_probe (now idNow : Time) (jr : Object) (raw : String)
    (hg : trimSpace (extractGeminiText jr) = "") :
    normalizeRest now idNow jr raw =
      writeChoices now idNow 200
        [("content", .str ((firstNonBlank (probeSequence jr)).getD raw))] := by
  have hb : isBlank (extractGeminiText jr) = true := (isBlank_iff _).mpr hg
  simp only [normalizeRest, hb, Bool.not_true, Bool.false_eq_true, if_false, probeFields_eq]
  cases firstNonBlank (probeSequence jr) <;> rfl

theorem firstNonBlank_not_blank (xs : List (Option String)) (s : String)
    (h : firstNonBlank xs = some s) : trimSpace s ≠ "" := by
  induction xs with
  | nil => simp [firstNonBlank] at h
  | cons x xs ih =>
    cases x with
    | none => exact ih (by simpa [firstNonBlank] using h)
    | some t =>
      cases hb : isBlank t with
      | true => exact ih (by simpa [firstNonBlank, hb] using h)
      | false =>
        have : t = s := by simpa [firstNonBlank, hb] using h
        subst this
        intro hc
        rw [(isBlank_iff t).mpr hc] at hb
        exact Bool.noConfusion hb

/-- C13: for every non-empty upstream body that parses as a JSON object `jr` with no non-empty
`choices` sequence, no non-blank string at `output_text` and a blank Gemini text, whenever the
probe sequence text-as-string, `text.content`, message-as-string, `message.content`,
content-as-string, `content.content` has a first non-blank hit `s`, the reply is the fresh envelope
with status 200 whose content is `s`. So a non-blank string at `text` is the content whatever
`message` and `content` hold, and when `text` gives no hit, the non-blank `content` of a mapping
at `message` is the content whatever the top-level `content` holds. -/
theorem generic_probe_first_hit (J : Json) (now idNow : Time) (resp : Response) (jr : Object)
    (s : String) (hne : resp.body ≠ "") (hp : J.parse resp.body = some (.obj jr))
    (hc : ∀ first rest, jr.get "choices" ≠ some (.arr (first :: rest)))
    (ho : ∀ t, jr.get "output_text" = some (.str t) → trimSpace t = "")
    (hg : trimSpace (extractGeminiText jr) = "")
    (hhit : firstNonBlank (probeSequence jr) = some s) :
    normalize J now idNow resp = writeChoices now idNow 200 [("content", .str s)] ∧
      (normalize J now idNow resp).code = 200 ∧
      (normalize J now idNow resp).content = some (.str s) ∧
      trimSpace s ≠ "" ∧
      (∀ t, jr.get "text" = some (.str t) → trimSpace t ≠ "" → s = t) ∧
      (∀ (m : Object) (t : String),
        firstNonBlank [getString jr "text", nestedContent jr "text"] = none →
        jr.get "message" = some (.obj m) → m.get "content" = some (.str t) →
        trimSpace t ≠ "" → s = t) := by
  have hn : normalize J now idNow resp = writeChoices now idNow 200 [("content", .str s)] := by
    rw [normalize_no_output J now idNow resp (some jr) hne (unmarshalMap_obj J _ jr hp) hc ho]
    have := normalizeRest_probe now idNow jr resp.body hg
    rw [hhit] at this
    exact this
  have hnb : ∀ t, trimSpace t ≠ "" → isBlank t = false := fun t ht => by
    cases hb : isBlank t with
    | false => rfl
    | true => exact absurd ((isBlank_iff t).mp hb) ht
  refine ⟨hn, by rw [hn]; rfl, by rw [hn]; exact writeChoices_content _ _ _ _,
    firstNonBlank_not_blank _ _ hhit, fun t ht hb => ?_, fun m t hnone hm hcont hb => ?_⟩
  · have h1 : getString jr "text" = some t := (getString_eq_some _ _ _).mpr ht
    have : firstNonBlank (probeSequence jr) = some t := by
      simp [probeSequence, firstNonBlank, h1, hnb t hb]
    rw [hhit] at this
    exact Option.some.inj this
  · have h1 : getString jr "message" = none := by simp [getString, hm]
    have h2 : nestedContent jr "message" = some t := by
      simp [nestedContent, asMap, hm, (getString_eq_some _ _ _).mpr hcont]
    have hseq : probeSequence jr =
        [getString jr "text", nestedContent jr "text"] ++
          [getString jr "message", nestedContent jr "message",
            getString jr "content", nestedContent jr "content"] := rfl
    have : firstNonBlank (probeSequence jr) = some t := by
      rw [hseq, firstNonBlank_append, hnone]
      simp [firstNonBlank, h1, h2, hnb t hb]
    rw [hhit] at this
    exact Option.some.inj this

theorem generic_probe_first_hit_witness :
    normalize miniJson sampleTime sampleTime nestedMessageResponse =
        writeChoices sampleTime sampleTime 200 [("content", .str "nested")] ∧
      (normalize miniJson sampleTime sampleTime nestedMessageResponse).code = 200 ∧
      (normalize miniJson sampleTime sampleTime nestedMessageResponse).content =
        some (.str "nested") ∧
      trimSpace "nested" ≠ "" ∧
      (∀ t, nestedMessageObject.get "text" = some (.str t) → trimSpace t ≠ "" → "nested" = t) ∧
      (∀ (m : Object) (t : String),
        firstNonBlank [getString nestedMessageObject "text",
          nestedContent nestedMessageObject "text"] = none →
        nestedMessageObject.get "message" = some (.obj m) → m.get "content" = some (.str t) →
        trimSpace t ≠ "" → "nested" = t) :=
  generic_probe_first_hit miniJson sampleTime sampleTime nestedMessageResponse
    nestedMessageObject "nested" (by decide) rfl
    (fun first rest h => by simp [nestedMessageObject, Object.get] at h)
    (fun t h => by simp [nestedMessageObject, Object.get] at h) rfl rfl

/-- A non-blank top-level `text` wins over `message` and `content`. -/
theorem text_first_example :
    miniJson.parse textFirstResponse.body = some (.obj textFirstObject) ∧
      normalize miniJson sampleTime sampleTime textFirstResponse =
        writeChoices sampleTime sampleTime 200 [("content", .str "t")] :=
  ⟨rfl, rfl⟩

/-- C14: for every non-empty upstream body that parses as a JSON object `jr` with no non-empty
`choices` sequence, no non-blank string at `output_text`, a blank Gemini text and no non-blank hit
in the probe of `text`, `message` and `content`, the reply is the fresh envelope with status 200
whose content is the raw body text. -/
theorem fallback_raw_body (J : Json) (now idNow : Time) (resp : Response) (jr : Object)
    (hne : resp.body ≠ "") (hp : J.parse resp.body = some (.obj jr))
    (hc : ∀ first rest, jr.get "choices" ≠ some (.arr (first :: rest)))
    (ho : ∀ t, jr.get "output_text" = some (.str t) → trimSpace t = "")
    (hg : trimSpace (extractGeminiText jr) = "")
    (hnone : firstNonBlank (probeSequence jr) = none) :
    normalize J now idNow resp = writeChoices now idNow 200 [("content", .str resp.body)] ∧
      (normalize J now idNow resp).code = 200 ∧
      (normalize J now idNow resp).content = some (.str resp.body) := by
  have hn : normalize J now idNow resp =
      writeChoices now idNow 200 [("content", .str resp.body)] := by
    rw [normalize_no_output J now idNow resp (some jr) hne (unmarshalMap_obj J _ jr hp) hc ho]
    have := normalizeRest_probe now idNow jr resp.body hg
    rw [hnone] at this
    exact this
  exact ⟨hn, by rw [hn]; rfl, by rw [hn]; exact writeChoices_content _ _ _ _⟩

theorem fallback_raw_body_witness :
    normalize miniJson sampleTime sampleTime unknownShapeResponse =
        writeChoices sampleTime sampleTime 200
          [("content", .str unknownShapeResponse.body)] ∧
      (normalize miniJson sampleTime sampleTime unknownShapeResponse).code = 200 ∧
      (normalize miniJson sampleTime sampleTime unknownShapeResponse).content =
        some (.str unknownShapeResponse.body) :=
  fallback_raw_body miniJson sampleTime sampleTime unknownShapeResponse unknownShapeObject
    (by decide) rfl
    (fun first rest h => by simp [unknownShapeObject, Object.get] at h)
    (fun t h => by simp [unknownShapeObject, Object.get] at h) rfl rfl

/-! ## Bodies that are no JSON object, empty bodies, and the status code -/

theorem normalizeRest_nil (now idNow : Time) (raw : String) :
    normalizeRest now idNow [] raw = writeChoices now idNow 200 [("content", .str raw)] := rfl

/-- C15: for every non-empty upstream body that does not parse as a JSON object, the reply is the
fresh envelope with status 200 whose content is the whole raw body text, as it is. -/
theorem non_object_body_verbatim (J : Json) (now idNow : Time) (resp : Response)
    (hne : resp.body ≠ "") (hno : ∀ m, J.parse resp.body ≠ some (.obj m)) :
    normalize J now idNow resp = writeChoices now idNow 200 [("content", .str resp.body)] ∧
      (normalize J now idNow resp).code = 200 ∧
      (normalize J now idNow resp).content = some (.str resp.body) := by
  have hn : normalize J now idNow resp =
      writeChoices now idNow 200 [("content", .str resp.body)] := by
    cases hp : J.parse resp.body with
    | none => exact normalize_nonjson J now idNow resp hne (unmarshalMap_error J _ (Or.inl hp))
    | some v =>
      cases v with
      | obj m => exact absurd hp (hno m)
      | null =>
        rw [normalize_no_output J now idNow resp none hne (unmarshalMap_null J _ hp)
          (fun first rest h => by simp [Object.get] at h)
          (fun s h => by simp [Object.get] at h)]
        exact normalizeRest_nil now idNow resp.body
      | bool b =>
        exact normalize_nonjson J now idNow resp hne
          (unmarshalMap_error J _ (Or.inr (Or.inl ⟨b, hp⟩)))
      | num q =>
        exact normalize_nonjson J now idNow resp hne
          (unmarshalMap_error J _ (Or.inr (Or.inr (Or.inl ⟨q, hp⟩))))
      | str s =>
        exact normalize_nonjson J now idNow resp hne
          (unmarshalMap_error J _ (Or.inr (Or.inr (Or.inr (Or.inl ⟨s, hp⟩)))))
      | arr xs =>
        exact normalize_nonjson J now idNow resp hne
          (unmarshalMap_error J _ (Or.inr (Or.inr (Or.inr (Or.inr ⟨xs, hp⟩)))))
  exact ⟨hn, by rw [hn]; rfl, by rw [hn]; exact writeChoices_content _ _ _ _⟩

theorem non_object_body_verbatim_witness :
    normalize miniJson sampleTime sampleTime plainTextResponse =
        writeChoices sampleTime sampleTime 200 [("content", .str "plain text reply")] ∧
      (normalize miniJson sampleTime sampleTime plainTextResponse).code = 200 ∧
      (normalize miniJson sampleTime sampleTime plainTextResponse).content =
        some (.str "plain text reply") :=
  non_object_body_verbatim miniJson sampleTime sampleTime plainTextResponse (by decide)
    (fun m h => by
      have h0 : miniJson.parse plainTextResponse.body = none := rfl
      rw [h0] at h
      exact Option.noConfusion h)

/-- C16: when the first response `handleChat` receives, at the call with counter `k` made with
the request `req` it built, has a zero-length body and the status line `r.status`, that call is
the last one it makes, and the reply is the fresh envelope with status 200 whose content is
`"Upstream returned empty response (status " ++ r.status ++ ")"`, which contains `r.status`. -/
theorem empty_body_diagnostic (W : World) (body : String) (s : Sanitized) (req : Request)
    (k : Nat) (r : Response) (hs : sanitizeRequest W.json body = .ok s)
    (hreq : newRequest W.parseURL W.getenv s.body = some req)
    (hk : (k : Int) ≤ envOrInt W.getenv "SHIM_RETRY" 2)
    (hok : W.send req k = .ok r)
    (hfail : ∀ j, j < k → ∃ e, W.send req j = .error e)
    (hempty : r.body = "") :
    ∃ o, handleChat W body = .ok o ∧
      o.request = req ∧
      o.trace = retryTrace W.conv k ∧ attempts o.trace = k + 1 ∧
      o.trace.getLast? = some (.call k) ∧
      o.reply.code = 200 ∧
      o.reply.content =
        some (.str ("Upstream returned empty response (status " ++ r.status ++ ")")) ∧
      o.reply = writeChoices W.now W.idNow 200
        [("content", .str ("Upstream returned empty response (status " ++ r.status ++ ")"))] ∧
      ∃ pre post, "Upstream returned empty response (status " ++ r.status ++ ")" =
        pre ++ r.status ++ post := by
  refine ⟨_, handleChat_received W body s req k r hs hreq hk hok hfail, rfl, rfl,
    retryTrace_attempts _ _,
    retryTrace_getLast _ _, ?_, ?_, ?_, ⟨"Upstream returned empty response (status ", ")", rfl⟩⟩
  · show (normalize W.json W.now W.idNow r).code = 200
    rw [normalize_empty _ _ _ _ hempty]; rfl
  · show (normalize W.json W.now W.idNow r).content = _
    rw [normalize_empty _ _ _ _ hempty]; exact writeChoices_content _ _ _ _
  · exact normalize_empty _ _ _ _ hempty

theorem empty_body_diagnostic_witness :
    ∃ o, handleChat emptyBodyWorld "hello" = .ok o ∧
      o.request = sampleRequest "hello" ∧
      o.trace = retryTrace emptyBodyWorld.conv 0 ∧
      attempts o.trace = 0 + 1 ∧
      o.trace.getLast? = some (.call 0) ∧
      o.reply.code = 200 ∧
      o.reply.content =
        some (.str ("Upstream returned empty response (status " ++
          emptyBodyResponse.status ++ ")")) ∧
      o.reply = writeChoices emptyBodyWorld.now emptyBodyWorld.idNow 200
        [("content", .str ("Upstream returned empty response (status " ++
          emptyBodyResponse.status ++ ")"))] ∧
      ∃ pre post, "Upstream returned empty response (status " ++ emptyBodyResponse.status ++ ")" =
        pre ++ emptyBodyResponse.status ++ post :=
  empty_body_diagnostic emptyBodyWorld "hello"
    { payload := none, body := "hello" } (sampleRequest "hello") 0 emptyBodyResponse rfl rfl
    (by decide) rfl
    (fun j hj => absurd hj (Nat.not_lt_zero j)) rfl

/-- The example of the specification: for the status `503 Service Unavailable` the content
contains `503`. -/
theorem empty_body_example :
    (normalize miniJson sampleTime sampleTime emptyBodyResponse).content =
        some (.str "Upstream returned empty response (status 503 Service Unavailable)") ∧
      "Upstream returned empty response (status 503 Service Unavailable)" =
        "Upstream returned empty response (status " ++ "503" ++ " Service Unavailable)" :=
  ⟨rfl, by decide⟩

theorem normalize_code (J : Json) (now idNow : Time) (resp : Response) :
    (PassesThrough J resp → (normalize J now idNow resp).code = resp.statusCode) ∧
    (¬ PassesThrough J resp → (normalize J now idNow resp).code = 200) := by
  constructor
  · rintro ⟨hne, jr, first, rest, hp, hc⟩
    rw [normalize_passthrough J now idNow resp jr first rest hne hp hc]
    rfl
  · intro hnot
    rcases normalize_shape J now idNow resp with ⟨s, hs⟩ | ⟨jr, first, rest, hne, hp, hc, _⟩
    · rw [hs]; rfl
    · exact absurd ⟨hne, jr, first, rest, hp, hc⟩ hnot

/-- C17: whenever `handleChat` answers, the status code it writes is the one of the upstream
response when the loop ended with a response whose body is a non-empty JSON object with a
non-empty `choices` sequence, and is 200 in every other case: when the loop ended with a transport
error, and when the response it ended with has any other body, whatever its status. -/
theorem reply_status_code (W : World) (body : String) (o : Outcome)
    (h : handleChat W body = .ok o) :
    (∀ resp,
      (runLoop W.conv (W.send o.request) (envOrInt W.getenv "SHIM_RETRY" 2)).err = none →
      (runLoop W.conv (W.send o.request) (envOrInt W.getenv "SHIM_RETRY" 2)).resp = some resp →
      PassesThrough W.json resp → o.reply.code = resp.statusCode) ∧
    (((runLoop W.conv (W.send o.request) (envOrInt W.getenv "SHIM_RETRY" 2)).err ≠ none ∨
      ∀ resp,
        (runLoop W.conv (W.send o.request) (envOrInt W.getenv "SHIM_RETRY" 2)).resp = some resp →
        ¬ PassesThrough W.json resp) →
      o.reply.code = 200) := by
  obtain ⟨s, _, _, _, hcase⟩ := handleChat_ok_inv W body o h
  rcases hcase with ⟨e, herr, hrep⟩ | ⟨herr, resp, hresp, hrep⟩
  · refine ⟨fun resp he _ _ => ?_, fun _ => by rw [hrep]; rfl⟩
    rw [herr] at he
    exact Option.noConfusion he
  · have hcode := normalize_code W.json W.now W.idNow resp
    refine ⟨fun resp2 _ hr hpass => ?_, fun hor => ?_⟩
    · rw [hresp] at hr
      cases hr
      rw [hrep]
      exact hcode.1 hpass
    · rcases hor with he | hall
      · exact absurd herr he
      · rw [hrep]
        exact hcode.2 (hall resp hresp)

theorem reply_status_code_witness :
    (∀ resp,
      (runLoop rateLimitedWorld.conv
        (rateLimitedWorld.send (sampleRequest "hello"))
        (envOrInt rateLimitedWorld.getenv "SHIM_RETRY" 2)).err = none →
      (runLoop rateLimitedWorld.conv
        (rateLimitedWorld.send (sampleRequest "hello"))
        (envOrInt rateLimitedWorld.getenv "SHIM_RETRY" 2)).resp = some resp →
      PassesThrough rateLimitedWorld.json resp →
      (normalize miniJson sampleTime sampleTime rateLimitedResponse).code = resp.statusCode) ∧
    (((runLoop rateLimitedWorld.conv
        (rateLimitedWorld.send (sampleRequest "hello"))
        (envOrInt rateLimitedWorld.getenv "SHIM_RETRY" 2)).err ≠ none ∨
      ∀ resp,
        (runLoop rateLimitedWorld.conv
          (rateLimitedWorld.send (sampleRequest "hello"))
          (envOrInt rateLimitedWorld.getenv "SHIM_RETRY" 2)).resp = some resp →
        ¬ PassesThrough rateLimitedWorld.json resp) →
      (normalize miniJson sampleTime sampleTime rateLimitedResponse).code = 200) :=
  reply_status_code rateLimitedWorld "hello"
    { request := sampleRequest "hello"
      trace := retryTrace rateLimitedWorld.conv 0
      reply := normalize miniJson sampleTime sampleTime rateLimitedResponse }
    rfl

/-- The status code of the upstream is passed on with an upstream object that has choices, and is
replaced by 200 otherwise. -/
theorem status_code_examples :
    (normalize miniJson sampleTime sampleTime rateLimitedResponse).code = 429 ∧
      (normalize miniJson sampleTime sampleTime sampleResponse).code = 200 ∧
      (normalize miniJson sampleTime sampleTime emptyBodyResponse).code = 200 :=
  ⟨rfl, rfl, rfl⟩

/-! ## Envelope builder -/

/-- C18: for every status code, every option map and every two readings of the clock, the
envelope `writeChoices` builds has `object = "chat.completion"`, `model = "gemini-2.5-pro"`,
`created` equal to the Unix time of the first reading, and a `choices` sequence of exactly one
element with `index = 0`, `finish_reason = "stop"`, `message.role = "assistant"` and
`message.content` equal to the `content` of the option map (so to the given content `v` for the
map with `content: v`); it is written with the given status code. `writeChoices` is a total
function: the construction cannot fail. -/
theorem envelope_shape (now idNow : Time) (code : Int) (opt : Object) :
    (writeChoices now idNow code opt).code = code ∧
    ∃ m c msg : Object,
      (writeChoices now idNow code opt).body = .obj m ∧
      m.get "object" = some (.str "chat.completion") ∧
      m.get "model" = some (.str "gemini-2.5-pro") ∧
      m.get "created" = some (.num now.unix) ∧
      m.get "choices" = some (.arr [.obj c]) ∧
      c.get "index" = some (.num 0) ∧
      c.get "finish_reason" = some (.str "stop") ∧
      c.get "message" = some (.obj msg) ∧
      msg.get "role" = some (.str "assistant") ∧
      msg.get "content" = some ((opt.get "content").getD .null) ∧
      (∀ v, opt = [("content", v)] → msg.get "content" = some v) ∧
      (writeChoices now idNow code opt).content = some ((opt.get "content").getD .null) := by
  refine ⟨rfl,
    [("choices", .arr [.obj [("finish_reason", .str "stop"), ("index", .num 0),
        ("message", .obj [("content", (opt.get "content").getD .null),
          ("role", .str "assistant")])]]),
      ("created", .num now.unix), ("id", .str ("shim-" ++ idNow.format150405)),
      ("model", .str "gemini-2.5-pro"), ("object", .str "chat.completion")],
    [("finish_reason", .str "stop"), ("index", .num 0),
      ("message", .obj [("content", (opt.get "content").getD .null),
        ("role", .str "assistant")])],
    [("content", (opt.get "content").getD .null), ("role", .str "assistant")],
    rfl, ?_, ?_, ?_, ?_, ?_, ?_, ?_, ?_, ?_, ?_, ?_⟩ <;>
    first
      | (intro v hv; subst hv; simp [Object.get])
      | simp [writeChoices, writeJSON, Reply.content, Object.get]

theorem digit_char_inj (x y : Nat) (hx : x < 10) (hy : y < 10)
    (h : Char.ofNat (48 + x) = Char.ofNat (48 + y)) : x = y := by
  have hn : ∀ d, d < 10 → (Char.ofNat (48 + d)).toNat = 48 + d := by
    intro d hd
    interval_cases d <;> rfl
  have := congrArg Char.toNat h
  rw [hn x hx, hn y hy] at this
  omega

theorem twoDigits_data (n : Nat) :
    (twoDigits n).data = [Char.ofNat (48 + n / 10 % 10), Char.ofNat (48 + n % 10)] := rfl

/-- The format `150405` tells two readings apart exactly by their second of the local day. -/
theorem format150405_eq_iff (t1 t2 : Time) :
    t1.format150405 = t2.format150405 ↔
      (t1.sec + t1.offset) % 86400 = (t2.sec + t2.offset) % 86400 := by
  constructor
  · intro h
    have hd := congrArg String.data h
    simp only [Time.format150405, String.data_append, twoDigits_data, List.cons_append,
      List.nil_append, List.cons.injEq, and_true] at hd
    obtain ⟨h1, h2, h3, h4, h5, h6⟩ := hd
    have e1 := digit_char_inj _ _ (Nat.mod_lt _ (by norm_num)) (Nat.mod_lt _ (by norm_num)) h1
    have e2 := digit_char_inj _ _ (Nat.mod_lt _ (by norm_num)) (Nat.mod_lt _ (by norm_num)) h2
    have e3 := digit_char_inj _ _ (Nat.mod_lt _ (by norm_num)) (Nat.mod_lt _ (by norm_num)) h3
    have e4 := digit_char_inj _ _ (Nat.mod_lt _ (by norm_num)) (Nat.mod_lt _ (by norm_num)) h4
    have e5 := digit_char_inj _ _ (Nat.mod_lt _ (by norm_num)) (Nat.mod_lt _ (by norm_num)) h5
    have e6 := digit_char_inj _ _ (Nat.mod_lt _ (by norm_num)) (Nat.mod_lt _ (by norm_num)) h6
    have b1 : (t1.sec + t1.offset) % 86400 < 86400 := Int.emod_lt_of_pos _ (by norm_num)
    have b2 : (t2.sec + t2.offset) % 86400 < 86400 := Int.emod_lt_of_pos _ (by norm_num)
    have p1 : 0 ≤ (t1.sec + t1.offset) % 86400 := Int.emod_nonneg _ (by norm_num)
    have p2 : 0 ≤ (t2.sec + t2.offset) % 86400 := Int.emod_nonneg _ (by norm_num)
    omega
  · intro h
    simp only [Time.format150405, h]

theorem writeChoices_id (now idNow : Time) (code : Int) (opt : Object) :
    (writeChoices now idNow code opt).id = some (.str ("shim-" ++ idNow.format150405)) := by
  simp [writeChoices, writeJSON, Reply.id, Object.get]

/-- C19, as the code has it: the `id` of an envelope is `"shim-"` followed by hour, minute and
second of the local wall clock at the second reading of the clock, so two envelopes have the same
`id` exactly when those readings fall on the same second of the local day. -/
theorem id_equal_iff (now1 idNow1 now2 idNow2 : Time) (code1 code2 : Int) (opt1 opt2 : Object) :
    (writeChoices now1 idNow1 code1 opt1).id = some (.str ("shim-" ++ idNow1.format150405)) ∧
    ((writeChoices now1 idNow1 code1 opt1).id = (writeChoices now2 idNow2 code2 opt2).id ↔
      (idNow1.sec + idNow1.offset) % 86400 = (idNow2.sec + idNow2.offset) % 86400) := by
  refine ⟨writeChoices_id _ _ _ _, ?_⟩
  rw [writeChoices_id, writeChoices_id, ← format150405_eq_iff]
  constructor
  · intro h
    have h2 : "shim-" ++ idNow1.format150405 = "shim-" ++ idNow2.format150405 := by
      simpa using h
    have h3 := congrArg String.data h2
    simp only [String.data_append] at h3
    exact String.ext (List.append_cancel_left h3)
  · intro h
    rw [h]

/-- C19, the claim as stated fails: envelopes built at two instants of the same second, and at
two instants a day apart, have the same `id`. -/
theorem id_not_unique_counterexample :
    sampleTime ≠ sampleTimeSameSecond ∧
      (writeChoices sampleTime sampleTime 200 []).id =
        (writeChoices sampleTimeSameSecond sampleTimeSameSecond 200 []).id ∧
    sampleTime ≠ sampleTimeNextDay ∧
      (writeChoices sampleTime sampleTime 200 []).id =
        (writeChoices sampleTimeNextDay sampleTimeNextDay 200 []).id ∧
    (writeChoices sampleTime sampleTime 200 []).id = some (.str "shim-231320") :=
  ⟨fun h => absurd (congrArg Time.nsec h) (by decide), rfl,
    fun h => absurd (congrArg Time.sec h) (by decide), rfl, rfl⟩
/-! ## The retry count from the environment -/

theorem retryLoop_holds (conv : Nat → Int) (send : Nat → Except String Response) (retry : Int) :
    ∀ (fuel attempt : Nat) (st : LoopState),
      (st.Holds ∨ ((attempt : Int) ≤ retry ∧ 0 < fuel)) →
      (retryLoop conv send retry fuel attempt st).Holds := by
  intro fuel
  induction fuel with
  | zero =>
    intro attempt st h
    rcases h with h | ⟨_, h⟩
    · exact h
    · exact absurd h (Nat.lt_irrefl 0)
  | succ f ih =>
    intro attempt st h
    rw [retryLoop_succ]
    by_cases h1 : (attempt : Int) ≤ retry
    · rw [if_pos h1]
      cases hs : send attempt with
      | ok r => exact Or.inl ⟨rfl, r, rfl⟩
      | error e => exact ih _ _ (Or.inl (Or.inr ⟨e, rfl, rfl⟩))
    · rw [if_neg h1]
      rcases h with h | ⟨h, _⟩
      · exact h
      · exact absurd h h1

/-- For a retry count that is not negative the loop ends holding a response or an error. -/
theorem runLoop_holds (conv : Nat → Int) (send : Nat → Except String Response) (retry : Int)
    (h : 0 ≤ retry) : (runLoop conv send retry).Holds := by
  unfold runLoop
  exact retryLoop_holds conv send retry _ 0 _ (Or.inr ⟨by simpa using h, by omega⟩)

/-- For a negative retry count the loop body never runs. -/
theorem runLoop_negative (conv : Nat → Int) (send : Nat → Except String Response) (retry : Int)
    (h : retry < 0) : runLoop conv send retry = LoopState.init := by
  unfold runLoop
  exact retryLoop_done conv send retry _ 0 _ (by simpa using h)

/-- With a retry count that is not negative, `handleChat` answers every request that passes the
sanitizer and is built. -/
theorem handleChat_answers (W : World) (body : String) (s : Sanitized) (req : Request)
    (hs : sanitizeRequest W.json body = .ok s)
    (hreq : newRequest W.parseURL W.getenv s.body = some req)
    (hr : 0 ≤ envOrInt W.getenv "SHIM_RETRY" 2) : ∃ o, handleChat W body = .ok o := by
  have hh := runLoop_holds W.conv (W.send req) _ hr
  rw [handleChat_of_request W body s req hs hreq]
  rcases hh with ⟨he, r, hresp⟩ | ⟨e, he, _⟩
  · rw [he, hresp]
    exact ⟨_, rfl⟩
  · rw [he]
    exact ⟨_, rfl⟩

/-- With a negative retry count, `handleChat` panics on every request that passes the
sanitizer. -/
theorem handleChat_negative_retry (W : World) (body : String) (s : Sanitized)
    (hs : sanitizeRequest W.json body = .ok s)
    (hr : envOrInt W.getenv "SHIM_RETRY" 2 < 0) : handleChat W body = .error .nilDeref := by
  cases hreq : newRequest W.parseURL W.getenv s.body with
  | none => simp only [handleChat, hs, hreq]
  | some req =>
    rw [handleChat_of_request W body s req hs hreq, runLoop_negative _ _ _ hr]
    rfl

/-- C20, at the failing input: with `SHIM_RETRY=-1` the retry count is `-1`, the request is
built, the loop makes no call and ends holding neither a response nor an error, and `handleChat`
dereferences the nil response. -/
theorem negative_retry_panics :
    envOrInt negativeRetryWorld.getenv "SHIM_RETRY" 2 = -1 ∧
      newRequest negativeRetryWorld.parseURL negativeRetryWorld.getenv "hello" =
        some (sampleRequest "hello") ∧
      (runLoop negativeRetryWorld.conv
        (negativeRetryWorld.send (sampleRequest "hello")) (-1)).resp = none ∧
      (runLoop negativeRetryWorld.conv
        (negativeRetryWorld.send (sampleRequest "hello")) (-1)).err = none ∧
      (runLoop negativeRetryWorld.conv
        (negativeRetryWorld.send (sampleRequest "hello")) (-1)).trace = [] ∧
      handleChat negativeRetryWorld "hello" = .error .nilDeref :=
  ⟨by decide, rfl, rfl, rfl, rfl, rfl⟩

end NachoBot
